import Mathlib

/-!
# quikman: repository generator

A shallow embedding of `cmd/quikman` (`generator.go`, `main.go`, `util.go`).

Conventions of the embedding.

* Go `string`s are Lean `String`s.  Indices and lengths count characters where
  Go counts bytes; every slice taken by the program is either cut at an index
  returned by `strings.Index` or cuts off the last position of a string, so the
  two agree whenever that last position holds an ASCII character (it holds the
  `,` separator whenever the call appended an entry).
* `strings.ToLower` maps every rune by `unicode.ToLower`, which lower-cases ASCII
  letters by arithmetic and looks every rune above ASCII up in the case tables of
  Go's package `unicode`; those tables are a parameter (`CaseRanges`), so what is
  proved holds for whatever they contain.
* The `go/ast` tree is cut down to what the program inspects: declarations,
  their specs, struct types and their fields.  A field keeps the text
  `types.ExprString` gives for its type.
* A run-time panic (slice bounds out of range) is an explicit outcome.
* `go/format` is not part of the program: the printer of a file and the
  formatter of the generated source are parameters (`Env`).
-/

namespace Quikman

/-! ## Strings -/

/-- The case tables of Go's package `unicode`, which are not part of the program: the
rune `unicode.To(unicode.LowerCase, r)` for a rune `r` above ASCII. -/
class CaseRanges where
  /-- The lower-case mapping of the tables. -/
  toLowerCase : Char → Char

variable [CaseRanges]

/-- Go `unicode.ToLower`: ASCII runes are mapped by arithmetic, the others through
the case tables. -/
def unicode.ToLower (r : Char) : Char :=
  if r.toNat ≤ 127 then
    if 65 ≤ r.toNat ∧ r.toNat ≤ 90 then Char.ofNat (r.toNat + 32) else r
  else CaseRanges.toLowerCase r

/-- Go `strings.ToLower`: every rune of the text mapped by `unicode.ToLower`. -/
def strings.ToLower (s : String) : String := ⟨s.data.map unicode.ToLower⟩

/-- Scan for the first position at which `sub` starts; `-1` when there is none. -/
def strings.indexAux (sub : List Char) : List Char → Nat → Int
  | [], i => if sub.isPrefixOf [] then (i : Int) else -1
  | c :: cs, i => if sub.isPrefixOf (c :: cs) then (i : Int) else strings.indexAux sub cs (i + 1)

/-- Go `strings.Index`: the index of the first instance of `sub` in `s`, or `-1`. -/
def strings.Index (s sub : String) : Int := strings.indexAux sub.data s.data 0

/-- Go `strings.Contains`. -/
def strings.Contains (s sub : String) : Bool := decide (0 ≤ strings.Index s sub)

/-- The slice expression `s[:hi]`; `none` is the run-time panic for an index out of range. -/
def sliceTo (s : String) (hi : Int) : Option String :=
  if 0 ≤ hi ∧ hi ≤ (s.length : Int) then some ⟨s.data.take hi.toNat⟩ else none

/-- The expression `s[:len(s)-1]`. -/
def dropLastByte (s : String) : Option String := sliceTo s ((s.length : Int) - 1)

/-! ## util.go -/

/-- `ArrayContains` reports whether list contains string element of key. -/
def ArrayContains : List String → String → Bool
  | [], _ => false
  | v :: vs, key => if v = key then true else ArrayContains vs key

/-! ## The syntax tree -/

/-- An `ast.Field`: its names (none for an embedded field) and the text of its type. -/
structure Field where
  Names : List String
  Typ : String
  deriving DecidableEq, Repr

/-- The type expression of a type spec: a struct type or anything else. -/
inductive TypeExpr where
  | StructType (Fields : List Field)
  | Other (text : String)
  deriving DecidableEq, Repr

/-- An `ast.Spec`. -/
inductive Spec where
  | TypeSpec (Name : String) (Typ : TypeExpr)
  | ImportSpec (Path : String)
  | ValueSpec (text : String)
  deriving DecidableEq, Repr

/-- The keyword of a general declaration. -/
inductive Token where
  | IMPORT
  | CONST
  | TYPE
  | VAR
  deriving DecidableEq, Repr

/-- An `ast.Decl`. -/
inductive Decl where
  | GenDecl (Tok : Token) (Specs : List Spec)
  | FuncDecl (text : String)
  | BadDecl
  deriving DecidableEq, Repr

/-- A source file: its path, its package clause and its parsed declarations. -/
structure File where
  Name : String
  Package : String
  Decls : List Decl
  deriving DecidableEq, Repr

/-! ## generator.go -/

/-- Generator generates Database action code. -/
structure Generator where
  buf : String
  rawModelName : String
  modelName : String
  repoName : String
  changableColNames : String
  changableColMasks : String
  changableColArgs : String
  readArgsWithP : String
  readArgs : String
  deriving DecidableEq, Repr

/-- The zero value of the generator's text fields, as `NewGenerator` leaves them. -/
def NewGenerator : Generator :=
  { buf := "", rawModelName := "", modelName := "", repoName := "",
    changableColNames := "", changableColMasks := "", changableColArgs := "",
    readArgsWithP := "", readArgs := "" }

/-- The system columns of `Setup`. -/
def atomicCols : List String :=
  ["id", "created_at", "updated_at", "deleted_at", "createdat", "updatedat", "deletedat"]

/-- How a call of `Setup` ends. -/
inductive SetupResult where
  | ok (g : Generator)
  | conflict (msg : String) (g : Generator)
  | panic
  deriving DecidableEq, Repr

/-- Body of the loop over the names of one field (generator.go, lines 93-100). -/
def Setup.ident (fTyp : String) (g : Generator) (ident : String) : Generator :=
  let g1 :=
    if !ArrayContains atomicCols (strings.ToLower ident) then
      let ln := strings.ToLower ident
      { g with
        changableColNames := g.changableColNames ++ (ln ++ ","),
        changableColMasks := g.changableColMasks ++ "?,",
        changableColArgs := g.changableColArgs ++ (ln ++ " " ++ fTyp ++ ",") }
    else g
  { g1 with
    readArgsWithP := g1.readArgsWithP ++ ("&m." ++ ident ++ ","),
    readArgs := g1.readArgs ++ ("m." ++ ident ++ ",") }

/-- Loop over the fields of one struct type (lines 90-102). -/
def Setup.fields (g : Generator) (fs : List Field) : Generator :=
  fs.foldl (fun acc f => f.Names.foldl (Setup.ident f.Typ) acc) g

/-- Loop over the specs of one declaration (lines 75-103); an error carries the
message and the generator as the early return leaves it. -/
def Setup.specs (g : Generator) : List Spec → Except (String × Generator) Generator
  | [] => Except.ok g
  | Spec.TypeSpec name typ :: rest =>
    if name = g.repoName then Except.error ("Repo already created -> " ++ name, g)
    else
      match typ with
      | TypeExpr.StructType fs => Setup.specs (Setup.fields g fs) rest
      | TypeExpr.Other _ => Setup.specs g rest
  | _ :: rest => Setup.specs g rest

/-- Loop over the declarations (lines 70-104). -/
def Setup.decls (g : Generator) : List Decl → Except (String × Generator) Generator
  | [] => Except.ok g
  | Decl.GenDecl _ specs :: rest =>
    match Setup.specs g specs with
    | Except.ok g1 => Setup.decls g1 rest
    | Except.error e => Except.error e
  | _ :: rest => Setup.decls g rest

/-- The derivation of the names (lines 66-69); `none` when the slice panics. -/
def Setup.names (g : Generator) (structName : String) : Option Generator :=
  let mIdx := strings.Index structName "Model"
  match sliceTo structName mIdx with
  | none => none
  | some modelName =>
    some { g with rawModelName := structName, modelName := modelName,
                  repoName := modelName ++ "Repository" }

/-- Removal of the trailing separators (lines 105-109). -/
def Setup.trim (g : Generator) : Option Generator :=
  match dropLastByte g.changableColNames, dropLastByte g.changableColMasks,
        dropLastByte g.changableColArgs, dropLastByte g.readArgsWithP,
        dropLastByte g.readArgs with
  | some a, some b, some c, some d, some e =>
    some { g with changableColNames := a, changableColMasks := b, changableColArgs := c,
                  readArgsWithP := d, readArgs := e }
  | _, _, _, _, _ => none

/-- `Generator.Setup`. -/
def Setup (g : Generator) (structName : String) (decls : List Decl) (_specs : List Spec) :
    SetupResult :=
  match Setup.names g structName with
  | none => SetupResult.panic
  | some g1 =>
    match Setup.decls g1 decls with
    | Except.error (msg, g2) => SetupResult.conflict msg g2
    | Except.ok g2 =>
      match Setup.trim g2 with
      | none => SetupResult.panic
      | some g3 => SetupResult.ok g3

/-- `Generator.BufferReset`. -/
def BufferReset (g : Generator) : Generator :=
  { g with changableColNames := "", changableColMasks := "", changableColArgs := "",
           readArgsWithP := "", readArgs := "", buf := "" }

/-- `Generator.Printfln`, applied to the already formatted text. -/
def Printfln (g : Generator) (text : String) : Generator :=
  { g with buf := g.buf ++ text ++ "\n" }

/-- Text of the `Create` signature (line 151). -/
def Generate.createSig (g : Generator) : String :=
  "func (r *" ++ g.repoName ++ ") Create(" ++ g.changableColArgs ++ ") error \x7b"

/-- Text of the statement preparing the INSERT (line 152). -/
def Generate.insertStmt (g : Generator) : String :=
  "ins, err := r.dbCtx.Prepare(\"INSERT INTO " ++ strings.ToLower g.modelName ++ "(" ++
    g.changableColNames ++ ") VALUES(" ++ g.changableColMasks ++ ")\")"

/-- Text of the call executing the INSERT (line 156). -/
def Generate.execCall (g : Generator) : String :=
  "_, err = ins.Exec(" ++ g.changableColNames ++ ")"

/-- Text of the single-row query of `Read` (line 163). -/
def Generate.readQuery (g : Generator) : String :=
  "row := r.dbCtx.QueryRow(\"SELECT * FROM " ++ g.modelName ++ " WHERE id = ?\", id)"

/-- Text of the scan of `Read` (line 164). -/
def Generate.readScan (g : Generator) : String :=
  "if err := row.Scan(" ++ g.readArgsWithP ++ "); err != nil \x7b"

/-- Text of the query of `ReadAll` (line 173). -/
def Generate.readAllQuery (g : Generator) : String :=
  "rows, err := r.dbCtx.Query(\"SELECT * FROM " ++ g.modelName ++ "\")"

/-- Text of the scan of `ReadAll` (line 179). -/
def Generate.readAllScan (g : Generator) : String :=
  "  err := rows.Scan(" ++ g.readArgsWithP ++ ")"

/-- Text of the statement prepared by `Update` (line 191). -/
def Generate.updateStmt (g : Generator) : String :=
  "upd, err := r.dbCtx.Prepare(\"UPDATE " ++ g.modelName ++
    " SET ...YOUR_QUERY... WHERE id = ?\")"

/-- Text of the statement executed by `Delete` (line 201). -/
def Generate.deleteStmt (g : Generator) : String :=
  "_, err := r.dbCtx.Exec(\"DELETE FROM " ++ g.modelName ++ " WHERE id = ?\", id)"

/-- The formatted text of the two `Printfln` calls of `generateCodeHeader`. -/
def generateCodeHeader.lines (g : Generator) : List String :=
  [ "// Code generated by quikman (model: " ++ g.rawModelName ++ ")",
    "// This section is editable.\n" ]

/-- The formatted text of every `Printfln` call of `Generate`, in order. -/
def Generate.lines (g : Generator) : List String :=
  generateCodeHeader.lines g ++
  [ -- generate repository
    "type " ++ g.repoName ++ " struct \x7b",
    "dbCtx *sql.DB",
    "\x7d\n",
    -- generate initialization method
    "func New" ++ g.repoName ++ " (dbCtx *sql.DB) *" ++ g.repoName ++ " \x7b",
    "\treturn &" ++ g.repoName ++ "\x7b",
    "\tdbCtx: dbCtx,",
    "\t\x7d",
    "\x7d\n",
    -- create
    Generate.createSig g,
    Generate.insertStmt g,
    "if err != nil \x7b",
    "  return err",
    "\x7d",
    Generate.execCall g,
    "return err",
    "\x7d\n",
    -- read
    "func (r *" ++ g.repoName ++ ") Read(id uint64) (*" ++ g.rawModelName ++ ", error) \x7b",
    "var m *" ++ g.rawModelName ++ "\n",
    Generate.readQuery g,
    Generate.readScan g,
    "  return nil, err",
    "\x7d",
    "return m, nil",
    "\x7d\n",
    -- read all
    "func (r *" ++ g.repoName ++ ") ReadAll() ([]*" ++ g.rawModelName ++ ", error) \x7b",
    "var res []*" ++ g.rawModelName,
    Generate.readAllQuery g,
    "if err != nil \x7b",
    "  return nil, err",
    "\x7d",
    "for rows.Next() \x7b",
    "  var m " ++ g.rawModelName,
    Generate.readAllScan g,
    "  if err != nil \x7b",
    "    return nil, err",
    "  \x7d",
    "  res = append(res, &m)",
    "\x7d",
    "return res, nil",
    "\x7d\n",
    -- update
    "func (r *" ++ g.repoName ++ ") Update(id uint64) error \x7b",
    "// FIXME Set your query",
    Generate.updateStmt g,
    "if err != nil \x7b",
    "  return err",
    "\x7d",
    "_, err = upd.Exec(id)",
    "return err",
    "\x7d\n",
    -- delete
    "func (r *" ++ g.repoName ++ ") Delete(id uint64) error \x7b",
    Generate.deleteStmt g,
    "return err",
    "\x7d\n" ]

/-- `Generator.Generate`: one `Printfln` per line; the struct type is not looked at. -/
def Generate (g : Generator) (_structType : TypeExpr) : Generator :=
  (Generate.lines g).foldl Printfln g

/-- The two services of `go/format` the program calls. -/
structure Env where
  /-- The call `format.Node` on a whole file. -/
  formatNode : File → String
  /-- The call `format.Source`: the formatted source, or the error text. -/
  formatSource : String → Except String String

/-- `Generator.Format`: the source to write, and the warning logged when formatting fails. -/
def Format (env : Env) (g : Generator) : String × List String :=
  match env.formatSource g.buf with
  | Except.ok src => (src, [])
  | Except.error err =>
    (g.buf, ["warning: an error occured while formatting generated program: " ++ err])

/-! ## util.go, continued -/

/-- Go `strconv.Quote`, for text that needs no escaping. -/
def strconv.Quote (s : String) : String := "\"" ++ s ++ "\""

/-- `AppendImportPackage` appends an import package(pkg) to AST specs. -/
def AppendImportPackage (pkg : String) (specs : List Spec) : List Spec :=
  specs ++ [Spec.ImportSpec (strconv.Quote pkg)]

/-! ## main.go: the processing loop (lines 58-107) -/

/-- What the loop over one file has done so far.  `setupCalls` and `setupNames` are
ghost fields: the generator as it stood at the entry of each call of `Setup` and the
struct name the call was made with, in call order. -/
structure Run where
  g : Generator
  file : File
  written : List String
  logs : List String
  setupCalls : List Generator
  setupNames : List String
  deriving DecidableEq, Repr

/-- A loop either runs on or the process dies in a panic. -/
inductive Outcome where
  | done (r : Run)
  | crashed (r : Run)
  deriving DecidableEq, Repr

/-- Body of the loop over the specs of a type declaration (lines 82-104). -/
def main.spec (env : Env) (specs : List Spec) (r : Run) (spec : Spec) : Outcome :=
  match spec with
  | Spec.TypeSpec name typ =>
    if !strings.Contains name "Model" then Outcome.done r
    else
      match typ with
      | TypeExpr.StructType _ =>
        let r1 := { r with setupCalls := r.setupCalls ++ [r.g],
                           setupNames := r.setupNames ++ [name] }
        match Setup r.g name r.file.Decls specs with
        | SetupResult.conflict msg g1 =>
          Outcome.done { r1 with g := g1, logs := r1.logs ++ [msg ++ "\n"] }
        | SetupResult.panic => Outcome.crashed r1
        | SetupResult.ok g1 =>
          let g2 := Generate g1 typ
          let out := Format env g2
          Outcome.done { r1 with g := g2, written := r1.written ++ [out.1],
                                 logs := r1.logs ++ out.2 }
      | TypeExpr.Other _ => Outcome.done r
  | _ => Outcome.done r

/-- The loop over the specs of a type declaration (line 81). -/
def main.specs (env : Env) (specs : List Spec) : Run → List Spec → Outcome
  | r, [] => Outcome.done r
  | r, s :: rest =>
    match main.spec env specs r s with
    | Outcome.done r1 => main.specs env specs r1 rest
    | Outcome.crashed r1 => Outcome.crashed r1

/-- Body of the loop over the declarations of a file (lines 60-106), at index `i`. -/
def main.decl (env : Env) (r : Run) (i : Nat) (decl : Decl) : Outcome :=
  let r0 := { r with g := BufferReset r.g }
  match decl with
  | Decl.GenDecl tok specs =>
    if tok = Token.IMPORT then
      -- override import specs
      let d := Decl.GenDecl tok (AppendImportPackage "database/sql" specs)
      Outcome.done { r0 with file := { r0.file with Decls := (r0.file.Decls.set i d).set 0 d } }
    else if tok ≠ Token.TYPE then Outcome.done r0
    else
      let existingFile := env.formatNode r0.file
      let r1 := { r0 with g := Printfln r0.g (existingFile ++ "\n") }
      main.specs env specs r1 specs
  | _ => Outcome.done r0

/-- The loop over the declarations of a file (line 59), from index `i` on. -/
def main.decls (env : Env) : Run → Nat → List Decl → Outcome
  | r, _, [] => Outcome.done r
  | r, i, d :: rest =>
    match main.decl env r i d with
    | Outcome.done r1 => main.decls env r1 (i + 1) rest
    | Outcome.crashed r1 => Outcome.crashed r1

/-- The processing of one file by the loop of `main`, entered with generator `g`. -/
def main.file (env : Env) (g : Generator) (file : File) : Outcome :=
  main.decls env
    { g := g, file := file, written := [], logs := [], setupCalls := [], setupNames := [] }
    0 file.Decls

/-- The loop over the files of the package (line 58); a panic ends it. -/
def main.files (env : Env) : Generator → List File → List Outcome
  | _, [] => []
  | g, f :: rest =>
    match main.file env g f with
    | Outcome.done r => Outcome.done r :: main.files env r.g rest
    | Outcome.crashed r => [Outcome.crashed r]

/-! ## Readings of the tree used to state the properties -/

/-- The specs of all general declarations of a declaration list, in order. -/
def specsOf : List Decl → List Spec
  | [] => []
  | Decl.GenDecl _ specs :: rest => specs ++ specsOf rest
  | _ :: rest => specsOf rest

/-- The name a spec declares as a type, if it is a type spec. -/
def Spec.typeName : Spec → Option String
  | Spec.TypeSpec name _ => some name
  | _ => none

/-- The fields of the struct type a spec declares, if it declares one. -/
def Spec.structFields : Spec → Option (List Field)
  | Spec.TypeSpec _ (TypeExpr.StructType fs) => some fs
  | _ => none

/-- The names of all type declarations of a declaration list, in order. -/
def typeNamesOf (decls : List Decl) : List String :=
  (specsOf decls).filterMap Spec.typeName

/-- The named fields of a field list as (name, type text) pairs, in declaration order. -/
def namedFields (fs : List Field) : List (String × String) :=
  fs.flatMap (fun f => f.Names.map (fun n => (n, f.Typ)))

/-- The named fields of every struct type among the specs, in order. -/
def fieldsOfSpecs (specs : List Spec) : List (String × String) :=
  (specs.filterMap Spec.structFields).flatMap namedFields

/-- The named fields of every struct type of a declaration list, in order. -/
def allFields (decls : List Decl) : List (String × String) :=
  fieldsOfSpecs (specsOf decls)

/-- The fields of the struct type declared under `name`, if the list declares one. -/
def fieldsOfModel (name : String) (decls : List Decl) : Option (List Field) :=
  ((specsOf decls).find? (fun s => decide (s.typeName = some name))).bind Spec.structFields

/-- A field is a system column when its lower-cased name is one of the seven names. -/
def isSystem (f : String × String) : Bool :=
  decide (strings.ToLower f.1 ∈
    ["id", "created_at", "updated_at", "deleted_at", "createdat", "updatedat", "deletedat"])

/-- The fields that are not system columns, in order. -/
def mutableFields (l : List (String × String)) : List (String × String) :=
  l.filter (fun f => !isSystem f)

/-- The fields that are system columns, in order. -/
def systemFields (l : List (String × String)) : List (String × String) :=
  l.filter isSystem

/-- The concatenation of a list of strings. -/
def concat (l : List String) : String := l.foldr (fun a b => a ++ b) ""

/-- Every entry followed by the separator, as the loop of `Setup` appends them. -/
def withSep (l : List String) : String := concat (l.map (fun a => a ++ ","))

/-- The entries separated by commas. -/
def commaSep : List String → String
  | [] => ""
  | [a] => a
  | a :: b :: rest => a ++ "," ++ commaSep (b :: rest)

/-- The column names of the mutable fields. -/
def colNames (l : List (String × String)) : List String :=
  (mutableFields l).map (fun f => strings.ToLower f.1)

/-- One placeholder per mutable field. -/
def colMasks (l : List (String × String)) : List String :=
  (mutableFields l).map (fun _ => "?")

/-- The typed parameters of the mutable fields. -/
def colArgs (l : List (String × String)) : List String :=
  (mutableFields l).map (fun f => strings.ToLower f.1 ++ " " ++ f.2)

/-- The scan targets of the fields. -/
def scanTargets (l : List (String × String)) : List String :=
  l.map (fun f => "&m." ++ f.1)

/-- The field selectors of the fields. -/
def fieldValues (l : List (String × String)) : List String :=
  l.map (fun f => "m." ++ f.1)

/-- The generator after the loop of `Setup` has gone over the fields `l`. -/
def Setup.add (g : Generator) (l : List (String × String)) : Generator :=
  { g with
    changableColNames := g.changableColNames ++ withSep (colNames l),
    changableColMasks := g.changableColMasks ++ withSep (colMasks l),
    changableColArgs := g.changableColArgs ++ withSep (colArgs l),
    readArgsWithP := g.readArgsWithP ++ withSep (scanTargets l),
    readArgs := g.readArgs ++ withSep (fieldValues l) }

/-- The generator a call of `Setup` leaves behind when it returns. -/
def SetupResult.gen? : SetupResult → Option Generator
  | SetupResult.ok g => some g
  | SetupResult.conflict _ g => some g
  | SetupResult.panic => none

/-- The text `structName[:mIdx]` of `Setup`: what stands before the first "Model". -/
def modelNameOf (structName : String) : String :=
  ⟨structName.data.take (strings.Index structName "Model").toNat⟩

/-- Removal of every instance of `sub`, scanning from the left, with `fuel` steps. -/
def stripAux (sub : List Char) : Nat → List Char → List Char
  | 0, l => l
  | _ + 1, [] => []
  | fuel + 1, c :: cs =>
    if sub.isPrefixOf (c :: cs) then stripAux sub fuel ((c :: cs).drop sub.length)
    else c :: stripAux sub fuel cs

/-- The `strip` of the specification's naming rule: `s` with the substring `sub` removed. -/
def specStrip (sub s : String) : String := ⟨stripAux sub.data s.length s.data⟩

/-- The number of comma-separated entries of a list text; the empty text has none. -/
def entryCount (s : String) : Nat :=
  if s = "" then 0 else s.data.count ',' + 1

/-- The number of `?` placeholders of a text. -/
def placeholderCount (s : String) : Nat := s.data.count '?'

/-- The accumulated lists of a generator: column names, placeholder masks, typed
arguments and the two scan-target lists. -/
def Generator.accumulators (g : Generator) : List String :=
  [g.changableColNames, g.changableColMasks, g.changableColArgs, g.readArgsWithP, g.readArgs]

/-- The state of a loop at its end or at the panic. -/
def Outcome.run : Outcome → Run
  | Outcome.done r => r
  | Outcome.crashed r => r

/-- Whether the text `s` begins with the text `pre`. -/
def startsWith (pre s : String) : Bool := pre.data.isPrefixOf s.data

/-- The number of imports of the package `pkg` in a spec list. -/
def countImports (pkg : String) (specs : List Spec) : Nat :=
  specs.count (Spec.ImportSpec (strconv.Quote pkg))

/-- A plain printer and a formatter that leaves the source as it is, to run examples. -/
def plainEnv : Env :=
  { formatNode := fun f =>
      "package " ++ f.Package ++ "\n" ++
        concat ((typeNamesOf f.Decls).map (fun n => "type " ++ n ++ "\n")),
    formatSource := fun src => Except.ok src }

/-! ## Example inputs -/

/-- The struct `UserModel` with fields ID uint64, Name string, CreatedAt time.Time. -/
def userModelSpec : Spec :=
  Spec.TypeSpec "UserModel" (TypeExpr.StructType
    [⟨["ID"], "uint64"⟩, ⟨["Name"], "string"⟩, ⟨["CreatedAt"], "time.Time"⟩])

/-- A file that imports `time` and declares `UserModel` alone. -/
def userFile : File :=
  { Name := "user.go", Package := "model",
    Decls := [Decl.GenDecl Token.IMPORT [Spec.ImportSpec "\"time\""],
              Decl.GenDecl Token.TYPE [userModelSpec]] }

/-- The generator `Setup` returns for `UserModel` in `userFile`, from a reset generator. -/
def userGenerator : Generator :=
  { buf := "", rawModelName := "UserModel", modelName := "User", repoName := "UserRepository",
    changableColNames := "name", changableColMasks := "?", changableColArgs := "name string",
    readArgsWithP := "&m.ID,&m.Name,&m.CreatedAt", readArgs := "m.ID,m.Name,m.CreatedAt" }

/-- A file declaring `UserModel` and, in a type declaration of its own, `ItemModel`
with fields ID uint64 and Title string. -/
def shopFile : File :=
  { Name := "shop.go", Package := "model",
    Decls := [Decl.GenDecl Token.IMPORT [Spec.ImportSpec "\"time\""],
              Decl.GenDecl Token.TYPE [userModelSpec],
              Decl.GenDecl Token.TYPE [Spec.TypeSpec "ItemModel" (TypeExpr.StructType
                [⟨["ID"], "uint64"⟩, ⟨["Title"], "string"⟩])]] }

/-- The generator `Setup` returns for `UserModel` in `shopFile`, from a reset generator. -/
def shopUserGenerator : Generator :=
  { buf := "", rawModelName := "UserModel", modelName := "User", repoName := "UserRepository",
    changableColNames := "name,title", changableColMasks := "?,?",
    changableColArgs := "name string,title string",
    readArgsWithP := "&m.ID,&m.Name,&m.CreatedAt,&m.ID,&m.Title",
    readArgs := "m.ID,m.Name,m.CreatedAt,m.ID,m.Title" }

/-- A file of two sibling models in separate type declarations: `AModel` with the
given fields, and `BModel` with the one field Title string. -/
def pairFile (aFields : List Field) : File :=
  { Name := "pair.go", Package := "model",
    Decls := [Decl.GenDecl Token.TYPE [Spec.TypeSpec "AModel" (TypeExpr.StructType aFields)],
              Decl.GenDecl Token.TYPE [Spec.TypeSpec "BModel" (TypeExpr.StructType
                [⟨["Title"], "string"⟩])]] }

/-- A file whose only struct, `AuditModel`, has the system columns ID and CreatedAt alone. -/
def auditFile : File :=
  { Name := "audit.go", Package := "model",
    Decls := [Decl.GenDecl Token.IMPORT [Spec.ImportSpec "\"time\""],
              Decl.GenDecl Token.TYPE [Spec.TypeSpec "AuditModel" (TypeExpr.StructType
                [⟨["ID"], "uint64"⟩, ⟨["CreatedAt"], "time.Time"⟩])]] }

/-- A file with one grouped type declaration holding the models `AModel` (Name string)
and `BModel` (Title string). -/
def groupedFile : File :=
  { Name := "grouped.go", Package := "model",
    Decls := [Decl.GenDecl Token.TYPE
      [Spec.TypeSpec "AModel" (TypeExpr.StructType [⟨["Name"], "string"⟩]),
       Spec.TypeSpec "BModel" (TypeExpr.StructType [⟨["Title"], "string"⟩])]] }

/-- A file with one grouped type declaration holding `AModel` (Name string), the
repository `ARepository` already generated for it, and `BModel` (Title string). -/
def regroupedFile : File :=
  { Name := "regrouped.go", Package := "model",
    Decls := [Decl.GenDecl Token.TYPE
      [Spec.TypeSpec "AModel" (TypeExpr.StructType [⟨["Name"], "string"⟩]),
       Spec.TypeSpec "ARepository" (TypeExpr.StructType [⟨["dbCtx"], "*sql.DB"⟩]),
       Spec.TypeSpec "BModel" (TypeExpr.StructType [⟨["Title"], "string"⟩])]] }

/-- A file declaring the single struct `UserModelExtra` with the field Name string. -/
def extraFile : File :=
  { Name := "extra.go", Package := "model",
    Decls := [Decl.GenDecl Token.TYPE
      [Spec.TypeSpec "UserModelExtra" (TypeExpr.StructType [⟨["Name"], "string"⟩])]] }

/-- A file declaring `UserModel` and the repository `UserRepository` generated for it. -/
def regeneratedFile : File :=
  { Name := "user.go", Package := "model",
    Decls := [Decl.GenDecl Token.TYPE [userModelSpec],
              Decl.GenDecl Token.TYPE
                [Spec.TypeSpec "UserRepository" (TypeExpr.StructType [⟨["dbCtx"], "*sql.DB"⟩])]] }

/-- An import list that already holds `database/sql`. -/
def sqlImports : List Spec := [Spec.ImportSpec "\"time\"", Spec.ImportSpec "\"database/sql\""]

/-- The fields of `UserModel`. -/
def userFields : List Field :=
  [⟨["ID"], "uint64"⟩, ⟨["Name"], "string"⟩, ⟨["CreatedAt"], "time.Time"⟩]

/-- Case tables without an entry: every rune above ASCII is its own lower case.
Texts of ASCII runes never consult the tables, so the examples are run with these. -/
def emptyCaseRanges : CaseRanges := ⟨fun r => r⟩

/-- Whether every rune of the text is an ASCII rune. -/
def isASCII (s : String) : Bool := s.data.all (fun r => decide (r.toNat ≤ 127))

/-- Whether the names of the fields are ASCII texts. -/
def asciiFields (l : List (String × String)) : Bool := l.all (fun f => isASCII f.1)

/-- Whether the names a spec declares, of the type and of its fields, are ASCII texts. -/
def Spec.isASCII : Spec → Bool
  | Spec.TypeSpec name (TypeExpr.StructType fs) =>
    Quikman.isASCII name && fs.all (fun f => f.Names.all Quikman.isASCII)
  | Spec.TypeSpec name (TypeExpr.Other _) => Quikman.isASCII name
  | _ => true

/-- Whether the names a declaration declares are ASCII texts. -/
def Decl.isASCII : Decl → Bool
  | Decl.GenDecl _ specs => specs.all Spec.isASCII
  | _ => true

/-- Whether the names a file declares are ASCII texts. -/
def File.isASCII (f : File) : Bool := f.Decls.all Decl.isASCII

/-- The specs that stand before the first type spec named `repo`; all when there is none. -/
def reachedSpecs (repo : String) : List Spec → List Spec
  | [] => []
  | s :: rest => if s.typeName = some repo then [] else s :: reachedSpecs repo rest

/-- The named fields of the struct types `Setup` goes over before it returns: those
declared before the first type named `repo`. -/
def reachedFields (repo : String) (decls : List Decl) : List (String × String) :=
  fieldsOfSpecs (reachedSpecs repo (specsOf decls))

/-- Go `strings.Split(s, ",")` on the runes of a text. -/
def splitComma : List Char → List (List Char)
  | [] => [[]]
  | c :: cs =>
    if c = ',' then [] :: splitComma cs
    else
      match splitComma cs with
      | [] => [[c]]
      | w :: ws => (c :: w) :: ws

/-- A file that declares the repository `UserRepository` before `UserModel`. -/
def reversedFile : File :=
  { Name := "user.go", Package := "model",
    Decls := [Decl.GenDecl Token.TYPE
                [Spec.TypeSpec "UserRepository" (TypeExpr.StructType [⟨["dbCtx"], "*sql.DB"⟩])],
              Decl.GenDecl Token.TYPE [userModelSpec]] }

omit [CaseRanges] in
theorem ArrayContains_eq_decide (l : List String) (key : String) :
    ArrayContains l key = decide (key ∈ l) := by
  induction l with
  | nil => simp [ArrayContains]
  | cons v vs ih =>
    by_cases h : v = key
    · simp [ArrayContains, h]
    · have h2 : ¬ key = v := fun e => h e.symm
      simp [ArrayContains, h, h2, ih]

theorem notSystem_eq (n t : String) :
    (!ArrayContains atomicCols (strings.ToLower n)) = !isSystem (n, t) := by
  rw [ArrayContains_eq_decide]; rfl

omit [CaseRanges] in
theorem concat_append (a b : List String) : concat (a ++ b) = concat a ++ concat b := by
  induction a with
  | nil => simp [concat]
  | cons x xs ih =>
    simp only [concat, List.cons_append, List.foldr_cons] at ih ⊢
    rw [ih, String.append_assoc]

omit [CaseRanges] in
theorem withSep_nil : withSep [] = "" := rfl

omit [CaseRanges] in
theorem withSep_append (a b : List String) : withSep (a ++ b) = withSep a ++ withSep b := by
  simp [withSep, concat_append]

omit [CaseRanges] in
theorem withSep_cons (a : String) (l : List String) : withSep (a :: l) = a ++ "," ++ withSep l := rfl

omit [CaseRanges] in
theorem withSep_eq_commaSep (l : List String) (h : l ≠ []) : withSep l = commaSep l ++ "," := by
  induction l with
  | nil => exact absurd rfl h
  | cons a rest ih =>
    cases rest with
    | nil => simp [withSep_cons, withSep_nil, commaSep]
    | cons b rest =>
      rw [withSep_cons, ih (by simp), commaSep]
      simp only [String.append_assoc]

omit [CaseRanges] in
theorem dropLastByte_sep (s : String) : dropLastByte (s ++ ",") = some s := by
  unfold dropLastByte sliceTo
  have hc : ",".length = 1 := rfl
  have hl : (s ++ ",").length = s.length + 1 := by rw [String.length_append, hc]
  rw [hl]
  have h1 : ((↑(s.length + 1) : Int) - 1) = (s.length : Int) := by push_cast; ring
  rw [h1]
  simp only [Int.toNat_ofNat]
  rw [if_pos (by constructor <;> omega)]
  congr 1
  apply String.ext
  have hd : ",".data = [','] := rfl
  rw [String.data_append, hd]
  show List.take s.data.length (s.data ++ [',']) = s.data
  simp

omit [CaseRanges] in
theorem dropLastByte_empty : dropLastByte "" = none := by decide

omit [CaseRanges] in
theorem dropLastByte_withSep (s : String) (l : List String) (h : l ≠ []) :
    dropLastByte (s ++ withSep l) = some (s ++ commaSep l) := by
  rw [withSep_eq_commaSep l h, ← String.append_assoc, dropLastByte_sep]

/-! ## Lemmas on `Setup` -/

theorem Setup.add_nil (g : Generator) : Setup.add g [] = g := by
  cases g
  simp [Setup.add, colNames, colMasks, colArgs, scanTargets, fieldValues, mutableFields,
    withSep_nil]

theorem mutableFields_append (a b : List (String × String)) :
    mutableFields (a ++ b) = mutableFields a ++ mutableFields b := by
  unfold mutableFields; rw [List.filter_append]

theorem colNames_append (a b : List (String × String)) :
    colNames (a ++ b) = colNames a ++ colNames b := by
  unfold colNames; rw [mutableFields_append, List.map_append]

theorem colMasks_append (a b : List (String × String)) :
    colMasks (a ++ b) = colMasks a ++ colMasks b := by
  unfold colMasks; rw [mutableFields_append, List.map_append]

theorem colArgs_append (a b : List (String × String)) :
    colArgs (a ++ b) = colArgs a ++ colArgs b := by
  unfold colArgs; rw [mutableFields_append, List.map_append]

omit [CaseRanges] in
theorem scanTargets_append (a b : List (String × String)) :
    scanTargets (a ++ b) = scanTargets a ++ scanTargets b := by
  unfold scanTargets; rw [List.map_append]

omit [CaseRanges] in
theorem fieldValues_append (a b : List (String × String)) :
    fieldValues (a ++ b) = fieldValues a ++ fieldValues b := by
  unfold fieldValues; rw [List.map_append]

omit [CaseRanges] in
theorem fieldsOfSpecs_append (a b : List Spec) :
    fieldsOfSpecs (a ++ b) = fieldsOfSpecs a ++ fieldsOfSpecs b := by
  unfold fieldsOfSpecs; rw [List.filterMap_append, List.flatMap_append]

omit [CaseRanges] in
theorem fieldsOfSpecs_cons (s : Spec) (rest : List Spec) :
    fieldsOfSpecs (s :: rest) = fieldsOfSpecs [s] ++ fieldsOfSpecs rest :=
  fieldsOfSpecs_append [s] rest

theorem Setup.add_add (g : Generator) (a b : List (String × String)) :
    Setup.add (Setup.add g a) b = Setup.add g (a ++ b) := by
  simp only [Setup.add, colNames_append, colMasks_append, colArgs_append, scanTargets_append,
    fieldValues_append, withSep_append, String.append_assoc]

theorem Setup.ident_eq (typ : String) (g : Generator) (n : String) :
    Setup.ident typ g n = Setup.add g [(n, typ)] := by
  unfold Setup.ident
  rw [notSystem_eq n typ]
  cases h : isSystem (n, typ) <;>
    simp [Setup.add, colNames, colMasks, colArgs, scanTargets, fieldValues, mutableFields, h,
      withSep_cons, withSep_nil, String.append_assoc]

theorem Setup.names_foldl (typ : String) (ns : List String) (g : Generator) :
    ns.foldl (Setup.ident typ) g = Setup.add g (ns.map (fun n => (n, typ))) := by
  induction ns generalizing g with
  | nil => simp [Setup.add_nil]
  | cons n ns ih =>
    rw [List.foldl_cons, ih, Setup.ident_eq, Setup.add_add]
    rfl

theorem Setup.fields_eq (g : Generator) (fs : List Field) :
    Setup.fields g fs = Setup.add g (namedFields fs) := by
  unfold Setup.fields
  induction fs generalizing g with
  | nil => simp [namedFields, Setup.add_nil]
  | cons f fs ih =>
    rw [List.foldl_cons, ih, Setup.names_foldl, Setup.add_add]
    simp [namedFields]

theorem Setup.add_repoName (g : Generator) (l : List (String × String)) :
    (Setup.add g l).repoName = g.repoName := rfl

theorem Setup.specs_append (g : Generator) (a b : List Spec) :
    Setup.specs g (a ++ b) =
      match Setup.specs g a with
      | Except.ok g1 => Setup.specs g1 b
      | Except.error e => Except.error e := by
  induction a generalizing g with
  | nil => simp [Setup.specs]
  | cons s rest ih =>
    cases s with
    | TypeSpec name typ =>
      by_cases hn : name = g.repoName
      · simp [Setup.specs, hn]
      · cases typ <;> simp [Setup.specs, hn, ih]
    | ImportSpec p => simp [Setup.specs, ih]
    | ValueSpec t => simp [Setup.specs, ih]

theorem Setup.decls_eq_specs (g : Generator) (decls : List Decl) :
    Setup.decls g decls = Setup.specs g (specsOf decls) := by
  induction decls generalizing g with
  | nil => simp [Setup.decls, specsOf, Setup.specs]
  | cons d rest ih =>
    cases d with
    | GenDecl tok specs =>
      rw [Setup.decls, specsOf, Setup.specs_append]
      cases Setup.specs g specs <;> simp [ih]
    | FuncDecl t => simp [Setup.decls, specsOf, ih]
    | BadDecl => simp [Setup.decls, specsOf, ih]

/-- Without a type named like the repository the loop goes over every struct type. -/
theorem Setup.specs_ok (g : Generator) (specs : List Spec)
    (h : g.repoName ∉ specs.filterMap Spec.typeName) :
    Setup.specs g specs = Except.ok (Setup.add g (fieldsOfSpecs specs)) := by
  induction specs generalizing g with
  | nil => simp [Setup.specs, fieldsOfSpecs, Setup.add_nil]
  | cons s rest ih =>
    cases s with
    | TypeSpec name typ =>
      have hn : ¬ name = g.repoName := by
        intro e; apply h; simp [Spec.typeName, e]
      have hr : g.repoName ∉ rest.filterMap Spec.typeName := by
        intro e; apply h; simp [Spec.typeName]; right; simpa using e
      cases typ with
      | StructType fs =>
        rw [Setup.specs, if_neg hn]
        rw [Setup.fields_eq, ih _ (by simpa [Setup.add_repoName] using hr), Setup.add_add]
        simp [fieldsOfSpecs, Spec.structFields]
      | Other t =>
        rw [Setup.specs, if_neg hn]
        rw [ih _ hr]
        simp [fieldsOfSpecs, Spec.structFields]
    | ImportSpec p =>
      have hr : g.repoName ∉ rest.filterMap Spec.typeName := by
        intro e; apply h; simpa [Spec.typeName] using e
      simp only [Setup.specs]; rw [ih _ hr]; simp [fieldsOfSpecs, Spec.structFields]
    | ValueSpec t =>
      have hr : g.repoName ∉ rest.filterMap Spec.typeName := by
        intro e; apply h; simpa [Spec.typeName] using e
      simp only [Setup.specs]; rw [ih _ hr]; simp [fieldsOfSpecs, Spec.structFields]

/-- With a type named like the repository the loop returns the error, having gone
over the struct types declared before it. -/
theorem Setup.specs_conflict (g : Generator) (specs : List Spec)
    (h : g.repoName ∈ specs.filterMap Spec.typeName) :
    ∃ pre post typ, specs = pre ++ Spec.TypeSpec g.repoName typ :: post ∧
      g.repoName ∉ pre.filterMap Spec.typeName ∧
      Setup.specs g specs =
        Except.error ("Repo already created -> " ++ g.repoName,
          Setup.add g (fieldsOfSpecs pre)) := by
  induction specs generalizing g with
  | nil => simp at h
  | cons s rest ih =>
    by_cases hs : s.typeName = some g.repoName
    · cases s with
      | TypeSpec name typ =>
        have hn : name = g.repoName := by simpa [Spec.typeName] using hs
        subst hn
        exact ⟨[], rest, typ, rfl, by simp, by simp [Setup.specs, fieldsOfSpecs, Setup.add_nil]⟩
      | ImportSpec p => simp [Spec.typeName] at hs
      | ValueSpec t => simp [Spec.typeName] at hs
    · have hr : g.repoName ∈ rest.filterMap Spec.typeName := by
        rw [List.filterMap_cons] at h
        cases hq : s.typeName with
        | none => simpa [hq] using h
        | some nm =>
          rw [hq] at h hs
          simp only [List.mem_cons] at h
          rcases h with h | h
          · exact absurd (by rw [h]) hs
          · exact h
      have step : ∃ l, Setup.specs g (s :: rest) = Setup.specs (Setup.add g l) rest ∧
          l = fieldsOfSpecs [s] := by
        cases s with
        | TypeSpec name typ =>
          have hn : ¬ name = g.repoName := by
            intro e; apply hs; simp [Spec.typeName, e]
          cases typ with
          | StructType fs =>
            exact ⟨namedFields fs, by rw [Setup.specs, if_neg hn, Setup.fields_eq],
              by simp [fieldsOfSpecs, Spec.structFields]⟩
          | Other t =>
            exact ⟨[], by rw [Setup.specs, if_neg hn, Setup.add_nil],
              by simp [fieldsOfSpecs, Spec.structFields]⟩
        | ImportSpec p =>
          exact ⟨[], by simp only [Setup.specs, Setup.add_nil], by simp [fieldsOfSpecs, Spec.structFields]⟩
        | ValueSpec t =>
          exact ⟨[], by simp only [Setup.specs, Setup.add_nil], by simp [fieldsOfSpecs, Spec.structFields]⟩
      obtain ⟨l, hstep, hl⟩ := step
      obtain ⟨pre, post, typ, hsplit, hpre, hres⟩ := ih (Setup.add g l) hr
      refine ⟨s :: pre, post, typ, ?_, ?_, ?_⟩
      · rw [hsplit]; rfl
      · rw [List.filterMap_cons]
        cases hq : s.typeName with
        | none => simpa using hpre
        | some nm =>
          simp only [List.mem_cons, not_or]
          refine ⟨?_, by simpa using hpre⟩
          intro e; apply hs; rw [hq, e]
      · rw [hstep, hres, Setup.add_add, hl, ← fieldsOfSpecs_cons]
        rfl

/-! ## Lemmas on `strings.Index` and the derived names -/

omit [CaseRanges] in
theorem strings.indexAux_spec (sub : List Char) (l : List Char) (i : Nat) :
    (strings.indexAux sub l i = -1 ∧ ∀ j, j ≤ l.length → ¬ sub <+: l.drop j) ∨
    (∃ k, k ≤ l.length ∧ strings.indexAux sub l i = ((i + k : Nat) : Int) ∧
      sub <+: l.drop k ∧ ∀ j, j < k → ¬ sub <+: l.drop j) := by
  induction l generalizing i with
  | nil =>
    by_cases h : sub.isPrefixOf [] = true
    · right
      refine ⟨0, le_refl _, by simp [strings.indexAux, h], ?_, by intro j hj; omega⟩
      simpa [List.isPrefixOf_iff_prefix] using h
    · left
      refine ⟨by simp [strings.indexAux, h], ?_⟩
      intro j _ hp
      apply h
      simpa [List.isPrefixOf_iff_prefix] using hp
  | cons c cs ih =>
    by_cases h : sub.isPrefixOf (c :: cs) = true
    · right
      refine ⟨0, Nat.zero_le _, by simp [strings.indexAux, h], ?_, by intro j hj; omega⟩
      simpa [List.isPrefixOf_iff_prefix] using h
    · have hnp : ¬ sub <+: c :: cs := by
        intro hp; apply h; simpa [List.isPrefixOf_iff_prefix] using hp
      have hstep : strings.indexAux sub (c :: cs) i = strings.indexAux sub cs (i + 1) := by
        simp [strings.indexAux, h]
      rcases ih (i + 1) with ⟨h1, h2⟩ | ⟨k, hk, h1, h2, h3⟩
      · left
        refine ⟨by rw [hstep, h1], ?_⟩
        intro j hj
        cases j with
        | zero => simpa using hnp
        | succ j => simpa using h2 j (by simpa using hj)
      · right
        refine ⟨k + 1, by simpa using hk, ?_, by simpa using h2, ?_⟩
        · rw [hstep, h1]; push_cast; ring
        · intro j hj
          cases j with
          | zero => simpa using hnp
          | succ j => simpa using h3 j (by omega)

omit [CaseRanges] in
/-- When the name contains "Model", it splits at the first instance, and
`modelNameOf` is the part before it. -/
theorem modelNameOf_spec (name : String) (h : strings.Contains name "Model" = true) :
    ∃ post : String, name = modelNameOf name ++ "Model" ++ post ∧
      strings.Index name "Model" = ((modelNameOf name).length : Int) ∧
      ∀ pre1 post1 : String, name = pre1 ++ "Model" ++ post1 →
        (modelNameOf name).length ≤ pre1.length := by
  have hc : 0 ≤ strings.Index name "Model" := by simpa [strings.Contains] using h
  unfold strings.Index at hc
  rcases strings.indexAux_spec "Model".data name.data 0 with ⟨h1, _⟩ | ⟨k, hk, h1, h2, h3⟩
  · rw [h1] at hc; omega
  · have hidx : strings.Index name "Model" = (k : Int) := by
      unfold strings.Index; rw [h1]; simp
    have hm : modelNameOf name = ⟨name.data.take k⟩ := by
      unfold modelNameOf; rw [hidx]; simp
    obtain ⟨t, ht⟩ := h2
    have hlen : (modelNameOf name).length = k := by
      rw [hm]; show (List.take k name.data).length = k
      rw [List.length_take]; exact Nat.min_eq_left hk
    refine ⟨⟨t⟩, ?_, by rw [hidx, hlen], ?_⟩
    · apply String.ext
      rw [String.data_append, String.data_append, hm]
      show name.data = List.take k name.data ++ "Model".data ++ t
      rw [List.append_assoc, ht, List.take_append_drop]
    · intro pre1 post1 he
      rw [hlen]
      by_contra hlt
      push_neg at hlt
      apply h3 pre1.length hlt
      have hd : name.data = pre1.data ++ ("Model".data ++ post1.data) := by
        rw [he, String.data_append, String.data_append, List.append_assoc]
      rw [hd]
      show "Model".data <+: List.drop pre1.data.length (pre1.data ++ ("Model".data ++ post1.data))
      rw [List.drop_left]
      exact List.prefix_append _ _

omit [CaseRanges] in
theorem Setup.names_eq (g : Generator) (name : String)
    (h : strings.Contains name "Model" = true) :
    Setup.names g name =
      some { g with rawModelName := name, modelName := modelNameOf name,
                    repoName := modelNameOf name ++ "Repository" } := by
  obtain ⟨post, hsplit, hidx, _⟩ := modelNameOf_spec name h
  unfold Setup.names sliceTo
  simp only []
  have hle : (modelNameOf name).length ≤ name.length := by
    conv_rhs => rw [hsplit]
    simp only [String.length_append]; omega
  rw [if_pos ⟨by rw [hidx]; omega, by rw [hidx]; exact_mod_cast hle⟩]
  rfl

/-! ## The outcome of `Setup` -/

theorem Setup.decls_ok (g : Generator) (decls : List Decl)
    (h : g.repoName ∉ typeNamesOf decls) :
    Setup.decls g decls = Except.ok (Setup.add g (allFields decls)) := by
  rw [Setup.decls_eq_specs]; exact Setup.specs_ok g _ h

theorem Setup.decls_conflict (g : Generator) (decls : List Decl)
    (h : g.repoName ∈ typeNamesOf decls) :
    ∃ pre post typ, specsOf decls = pre ++ Spec.TypeSpec g.repoName typ :: post ∧
      g.repoName ∉ pre.filterMap Spec.typeName ∧
      Setup.decls g decls =
        Except.error ("Repo already created -> " ++ g.repoName,
          Setup.add g (fieldsOfSpecs pre)) := by
  rw [Setup.decls_eq_specs]; exact Setup.specs_conflict g _ h

omit [CaseRanges] in
theorem Setup.trim_some (g g' : Generator) (h : Setup.trim g = some g') :
    dropLastByte g.changableColNames = some g'.changableColNames ∧
    dropLastByte g.changableColMasks = some g'.changableColMasks ∧
    dropLastByte g.changableColArgs = some g'.changableColArgs ∧
    dropLastByte g.readArgsWithP = some g'.readArgsWithP ∧
    dropLastByte g.readArgs = some g'.readArgs ∧
    g'.buf = g.buf ∧ g'.rawModelName = g.rawModelName ∧ g'.modelName = g.modelName ∧
    g'.repoName = g.repoName := by
  unfold Setup.trim at h
  cases ha : dropLastByte g.changableColNames <;>
  cases hb : dropLastByte g.changableColMasks <;>
  cases hc : dropLastByte g.changableColArgs <;>
  cases hd : dropLastByte g.readArgsWithP <;>
  cases he : dropLastByte g.readArgs <;>
  simp [ha, hb, hc, hd, he] at h
  subst h
  simp

/-- A call of `Setup` that returns no error found no type named like the
repository, went over every struct type, and cut the last position of each list. -/
theorem Setup.ok_inv (g g' : Generator) (name : String) (decls : List Decl) (specs : List Spec)
    (h : Setup g name decls specs = SetupResult.ok g') :
    ∃ g1, Setup.names g name = some g1 ∧ g1.repoName ∉ typeNamesOf decls ∧
      Setup.trim (Setup.add g1 (allFields decls)) = some g' := by
  unfold Setup at h
  cases hn : Setup.names g name with
  | none => simp [hn] at h
  | some g1 =>
    refine ⟨g1, rfl, ?_⟩
    rw [hn] at h
    simp only [] at h
    by_cases hm : g1.repoName ∈ typeNamesOf decls
    · obtain ⟨pre, post, typ, _, _, hr⟩ := Setup.decls_conflict g1 decls hm
      rw [hr] at h; simp at h
    · rw [Setup.decls_ok g1 decls hm] at h
      simp only [] at h
      cases ht : Setup.trim (Setup.add g1 (allFields decls)) with
      | none => rw [ht] at h; simp at h
      | some g3 =>
        rw [ht] at h
        simp only [SetupResult.ok.injEq] at h
        exact ⟨hm, by rw [h]⟩

omit [CaseRanges] in
theorem Setup.names_acc (g g1 : Generator) (name : String) (h : Setup.names g name = some g1) :
    g1.changableColNames = g.changableColNames ∧ g1.changableColMasks = g.changableColMasks ∧
    g1.changableColArgs = g.changableColArgs ∧ g1.readArgsWithP = g.readArgsWithP ∧
    g1.readArgs = g.readArgs ∧ g1.buf = g.buf := by
  unfold Setup.names at h
  cases hs : sliceTo name (strings.Index name "Model") with
  | none => simp [hs] at h
  | some m =>
    simp only [hs, Option.some.injEq] at h
    subst h
    simp

omit [CaseRanges] in
theorem dropLastByte_fresh (l : List String) (s : String)
    (h : dropLastByte ("" ++ withSep l) = some s) : s = commaSep l := by
  cases l with
  | nil =>
    have he : dropLastByte ("" ++ withSep []) = none := by decide
    rw [he] at h; exact absurd h (by simp)
  | cons a rest =>
    rw [dropLastByte_withSep "" _ (by simp)] at h
    simp only [Option.some.injEq] at h
    rw [← h, String.empty_append]

/-! ## Classification of the fields -/

theorem mem_mutableFields (l : List (String × String)) (f : String × String) :
    f ∈ mutableFields l ↔ f ∈ l ∧
      strings.ToLower f.1 ∉
        ["id", "created_at", "updated_at", "deleted_at", "createdat", "updatedat", "deletedat"] := by
  unfold mutableFields isSystem
  rw [List.mem_filter]
  simp

theorem mem_systemFields (l : List (String × String)) (f : String × String) :
    f ∈ systemFields l ↔ f ∈ l ∧
      strings.ToLower f.1 ∈
        ["id", "created_at", "updated_at", "deleted_at", "createdat", "updatedat", "deletedat"] := by
  unfold systemFields isSystem
  rw [List.mem_filter]
  simp

theorem length_mutable_add_system (l : List (String × String)) :
    (mutableFields l).length + (systemFields l).length = l.length := by
  induction l with
  | nil => rfl
  | cons f rest ih =>
    unfold mutableFields systemFields at ih ⊢
    cases hf : isSystem f <;> simp [List.filter_cons, hf] <;> omega

/-! ## Texts of ASCII runes do not consult the case tables -/

omit [CaseRanges] in
theorem unicode.ToLower_rune_ascii (T1 T2 : CaseRanges) (r : Char) (h : r.toNat ≤ 127) :
    @unicode.ToLower T1 r = @unicode.ToLower T2 r := by
  unfold unicode.ToLower
  rw [if_pos h, if_pos h]

omit [CaseRanges] in
theorem strings.ToLower_ascii (T1 T2 : CaseRanges) (s : String) (h : isASCII s = true) :
    @strings.ToLower T1 s = @strings.ToLower T2 s := by
  unfold strings.ToLower
  congr 1
  apply List.map_congr_left
  intro r hr
  apply unicode.ToLower_rune_ascii
  have := List.all_eq_true.mp h r hr
  simpa using this

omit [CaseRanges] in
theorem isSystem_ascii (T1 T2 : CaseRanges) (f : String × String) (h : isASCII f.1 = true) :
    @isSystem T1 f = @isSystem T2 f := by
  unfold isSystem
  rw [strings.ToLower_ascii T1 T2 f.1 h]

omit [CaseRanges] in
theorem mutableFields_ascii (T1 T2 : CaseRanges) (l : List (String × String))
    (h : asciiFields l = true) : @mutableFields T1 l = @mutableFields T2 l := by
  unfold mutableFields
  apply List.filter_congr
  intro f hf
  rw [isSystem_ascii T1 T2 f (List.all_eq_true.mp h f hf)]

omit [CaseRanges] in
theorem systemFields_ascii (T1 T2 : CaseRanges) (l : List (String × String))
    (h : asciiFields l = true) : @systemFields T1 l = @systemFields T2 l := by
  unfold systemFields
  apply List.filter_congr
  intro f hf
  rw [isSystem_ascii T1 T2 f (List.all_eq_true.mp h f hf)]

omit [CaseRanges] in
theorem asciiFields_mutable (T : CaseRanges) (l : List (String × String))
    (h : asciiFields l = true) : asciiFields (@mutableFields T l) = true := by
  unfold asciiFields at *
  rw [List.all_eq_true] at *
  intro f hf
  exact h f (List.mem_of_mem_filter hf)

omit [CaseRanges] in
theorem colNames_ascii (T1 T2 : CaseRanges) (l : List (String × String))
    (h : asciiFields l = true) : @colNames T1 l = @colNames T2 l := by
  unfold colNames
  rw [mutableFields_ascii T1 T2 l h]
  apply List.map_congr_left
  intro f hf
  exact strings.ToLower_ascii T1 T2 f.1 (List.all_eq_true.mp (asciiFields_mutable T2 l h) f hf)

omit [CaseRanges] in
theorem colMasks_ascii (T1 T2 : CaseRanges) (l : List (String × String))
    (h : asciiFields l = true) : @colMasks T1 l = @colMasks T2 l := by
  unfold colMasks
  rw [mutableFields_ascii T1 T2 l h]

omit [CaseRanges] in
theorem colArgs_ascii (T1 T2 : CaseRanges) (l : List (String × String))
    (h : asciiFields l = true) : @colArgs T1 l = @colArgs T2 l := by
  unfold colArgs
  rw [mutableFields_ascii T1 T2 l h]
  apply List.map_congr_left
  intro f hf
  rw [strings.ToLower_ascii T1 T2 f.1 (List.all_eq_true.mp (asciiFields_mutable T2 l h) f hf)]

omit [CaseRanges] in
theorem Setup.ident_ascii (T1 T2 : CaseRanges) (typ : String) (g : Generator) (ident : String)
    (h : isASCII ident = true) : @Setup.ident T1 typ g ident = @Setup.ident T2 typ g ident := by
  unfold Setup.ident
  rw [strings.ToLower_ascii T1 T2 ident h]

omit [CaseRanges] in
theorem Setup.idents_ascii (T1 T2 : CaseRanges) (typ : String) (ns : List String)
    (g : Generator) (h : ns.all isASCII = true) :
    ns.foldl (@Setup.ident T1 typ) g = ns.foldl (@Setup.ident T2 typ) g := by
  induction ns generalizing g with
  | nil => rfl
  | cons n ns ih =>
    rw [List.all_cons, Bool.and_eq_true] at h
    rw [List.foldl_cons, List.foldl_cons, Setup.ident_ascii T1 T2 typ g n h.1, ih _ h.2]

omit [CaseRanges] in
theorem Setup.fields_ascii (T1 T2 : CaseRanges) (g : Generator) (fs : List Field)
    (h : fs.all (fun f => f.Names.all isASCII) = true) :
    @Setup.fields T1 g fs = @Setup.fields T2 g fs := by
  unfold Setup.fields
  induction fs generalizing g with
  | nil => rfl
  | cons f fs ih =>
    rw [List.all_cons, Bool.and_eq_true] at h
    rw [List.foldl_cons, List.foldl_cons, Setup.idents_ascii T1 T2 f.Typ f.Names g h.1,
      ih _ h.2]

omit [CaseRanges] in
theorem Setup.specs_tables (T1 T2 : CaseRanges) (g : Generator) (specs : List Spec)
    (h : specs.all Spec.isASCII = true) :
    @Setup.specs T1 g specs = @Setup.specs T2 g specs := by
  induction specs generalizing g with
  | nil => rfl
  | cons s rest ih =>
    rw [List.all_cons, Bool.and_eq_true] at h
    cases s with
    | TypeSpec name typ =>
      by_cases hn : name = g.repoName
      · simp [Setup.specs, hn]
      · cases typ with
        | StructType fs =>
          have hf : fs.all (fun f => f.Names.all isASCII) = true := by
            have := h.1
            simp only [Spec.isASCII, Bool.and_eq_true] at this
            exact this.2
          simp only [Setup.specs, if_neg hn]
          rw [Setup.fields_ascii T1 T2 g fs hf, ih _ h.2]
        | Other t =>
          simp only [Setup.specs, if_neg hn]
          exact ih _ h.2
    | ImportSpec p => simp only [Setup.specs]; exact ih _ h.2
    | ValueSpec t => simp only [Setup.specs]; exact ih _ h.2

omit [CaseRanges] in
theorem Setup.decls_tables (T1 T2 : CaseRanges) (g : Generator) (decls : List Decl)
    (h : decls.all Decl.isASCII = true) :
    @Setup.decls T1 g decls = @Setup.decls T2 g decls := by
  induction decls generalizing g with
  | nil => rfl
  | cons d rest ih =>
    rw [List.all_cons, Bool.and_eq_true] at h
    cases d with
    | GenDecl tok specs =>
      simp only [Setup.decls]
      rw [Setup.specs_tables T1 T2 g specs h.1]
      cases @Setup.specs T2 g specs with
      | ok g1 => exact ih _ h.2
      | error e => rfl
    | FuncDecl t => simp only [Setup.decls]; exact ih _ h.2
    | BadDecl => simp only [Setup.decls]; exact ih _ h.2

omit [CaseRanges] in
/-- On declarations whose names are ASCII texts `Setup` does the same with any two
case tables. -/
theorem Setup_ascii (T1 T2 : CaseRanges) (g : Generator) (name : String) (decls : List Decl)
    (specs : List Spec) (h : decls.all Decl.isASCII = true) :
    @Setup T1 g name decls specs = @Setup T2 g name decls specs := by
  unfold Setup
  cases Setup.names g name with
  | none => rfl
  | some g1 =>
    simp only []
    rw [Setup.decls_tables T1 T2 g1 decls h]

omit [CaseRanges] in
theorem Generate.insertStmt_ascii (T1 T2 : CaseRanges) (g : Generator)
    (h : isASCII g.modelName = true) :
    @Generate.insertStmt T1 g = @Generate.insertStmt T2 g := by
  unfold Generate.insertStmt
  rw [strings.ToLower_ascii T1 T2 g.modelName h]

omit [CaseRanges] in
theorem Generate_ascii (T1 T2 : CaseRanges) (g : Generator) (structType : TypeExpr)
    (h : isASCII g.modelName = true) :
    @Generate T1 g structType = @Generate T2 g structType := by
  unfold Generate Generate.lines
  rw [Generate.insertStmt_ascii T1 T2 g h]

omit [CaseRanges] in
theorem isASCII_take (s : String) (k : Nat) (h : isASCII s = true) :
    isASCII ⟨s.data.take k⟩ = true := by
  unfold isASCII at *
  rw [List.all_eq_true] at *
  intro r hr
  exact h r (List.mem_of_mem_take hr)

omit [CaseRanges] in
/-- The model name `Setup` derives from an ASCII struct name is an ASCII text. -/
theorem Setup.ok_modelName_ascii (T : CaseRanges) (g g1 : Generator) (name : String)
    (decls : List Decl) (specs : List Spec) (hn : isASCII name = true)
    (h : @Setup T g name decls specs = SetupResult.ok g1) : isASCII g1.modelName = true := by
  obtain ⟨g0, h0, _, ht⟩ := @Setup.ok_inv T g g1 name decls specs h
  have hm : g1.modelName = g0.modelName := (Setup.trim_some _ _ ht).2.2.2.2.2.2.2.1
  rw [hm]
  unfold Setup.names at h0
  cases hs : sliceTo name (strings.Index name "Model") with
  | none => simp [hs] at h0
  | some m =>
    simp only [hs, Option.some.injEq] at h0
    rw [← h0]
    show isASCII m = true
    unfold sliceTo at hs
    split at hs
    · simp only [Option.some.injEq] at hs
      rw [← hs]
      exact isASCII_take name _ hn
    · simp at hs

omit [CaseRanges] in
theorem main.spec_file (T : CaseRanges) (env : Env) (specs : List Spec) (r : Run)
    (spec : Spec) : (@main.spec T env specs r spec).run.file = r.file := by
  cases spec with
  | TypeSpec name typ =>
    cases hc : strings.Contains name "Model" with
    | false => simp [main.spec, hc, Outcome.run]
    | true =>
      cases typ with
      | StructType fs =>
        simp only [main.spec, hc]
        cases @Setup T r.g name r.file.Decls specs <;> simp [Outcome.run]
      | Other t => simp [main.spec, hc, Outcome.run]
  | ImportSpec p => rfl
  | ValueSpec t => rfl

omit [CaseRanges] in
theorem main.specs_file (T : CaseRanges) (env : Env) (specs : List Spec) (l : List Spec)
    (r : Run) : (@main.specs T env specs r l).run.file = r.file := by
  induction l generalizing r with
  | nil => rfl
  | cons s rest ih =>
    unfold main.specs
    have hs := main.spec_file T env specs r s
    cases hm : @main.spec T env specs r s with
    | done r1 =>
      rw [hm] at hs
      simp only []
      rw [ih r1]
      exact hs
    | crashed r1 =>
      rw [hm] at hs
      exact hs

omit [CaseRanges] in
theorem main.spec_ascii (T1 T2 : CaseRanges) (env : Env) (specs : List Spec) (r : Run)
    (spec : Spec) (hf : r.file.isASCII = true) (hs : spec.isASCII = true) :
    @main.spec T1 env specs r spec = @main.spec T2 env specs r spec := by
  cases spec with
  | TypeSpec name typ =>
    cases hc : strings.Contains name "Model" with
    | false => simp [main.spec, hc]
    | true =>
      cases typ with
      | StructType fs =>
        have hn : isASCII name = true := by
          simp only [Spec.isASCII, Bool.and_eq_true] at hs
          exact hs.1
        simp only [main.spec, hc]
        rw [Setup_ascii T1 T2 r.g name r.file.Decls specs hf]
        cases hr : @Setup T2 r.g name r.file.Decls specs with
        | ok g1 =>
          simp only []
          rw [Generate_ascii T1 T2 g1 _
            (Setup.ok_modelName_ascii T2 r.g g1 name r.file.Decls specs hn hr)]
        | conflict msg g1 => rfl
        | panic => rfl
      | Other t => simp [main.spec, hc]
  | ImportSpec p => rfl
  | ValueSpec t => rfl

omit [CaseRanges] in
theorem main.specs_ascii (T1 T2 : CaseRanges) (env : Env) (specs : List Spec) (l : List Spec)
    (r : Run) (hf : r.file.isASCII = true) (hl : l.all Spec.isASCII = true) :
    @main.specs T1 env specs r l = @main.specs T2 env specs r l := by
  induction l generalizing r with
  | nil => rfl
  | cons s rest ih =>
    rw [List.all_cons, Bool.and_eq_true] at hl
    unfold main.specs
    rw [main.spec_ascii T1 T2 env specs r s hf hl.1]
    have hfile := main.spec_file T2 env specs r s
    cases hm : @main.spec T2 env specs r s with
    | done r1 =>
      rw [hm] at hfile
      simp only []
      exact ih r1 (by rw [show r1.file = r.file from hfile]; exact hf) hl.2
    | crashed r1 => rfl

omit [CaseRanges] in
theorem all_set {α : Type} (p : α → Bool) (l : List α) (i : Nat) (a : α)
    (hl : l.all p = true) (ha : p a = true) : (l.set i a).all p = true := by
  rw [List.all_eq_true] at *
  intro x hx
  rcases List.mem_or_eq_of_mem_set hx with h | h
  · exact hl x h
  · rw [h]; exact ha

omit [CaseRanges] in
theorem main.decl_ascii (T1 T2 : CaseRanges) (env : Env) (r : Run) (i : Nat) (decl : Decl)
    (hf : r.file.isASCII = true) (hd : decl.isASCII = true) :
    @main.decl T1 env r i decl = @main.decl T2 env r i decl ∧
      (@main.decl T2 env r i decl).run.file.isASCII = true := by
  cases decl with
  | GenDecl tok specs =>
    unfold main.decl
    by_cases ht : tok = Token.IMPORT
    · simp only [ht, if_true]
      refine ⟨trivial, ?_⟩
      show ((r.file.Decls.set i _).set 0 _).all Decl.isASCII = true
      have hd2 : (Decl.GenDecl Token.IMPORT
          (AppendImportPackage "database/sql" specs)).isASCII = true := by
        have hs : specs.all Spec.isASCII = true := hd
        show (specs ++ [Spec.ImportSpec _]).all Spec.isASCII = true
        rw [List.all_append, hs]
        rfl
      exact all_set _ _ _ _ (all_set _ _ _ _ hf hd2) hd2
    · by_cases ht2 : tok = Token.TYPE
      · subst ht2
        simp only [if_neg ht, ne_eq, not_true_eq_false, if_false]
        constructor
        · exact main.specs_ascii T1 T2 env specs specs _ hf hd
        · rw [main.specs_file]
          exact hf
      · simp only [if_neg ht, ne_eq, ht2, not_false_eq_true, if_true]
        exact ⟨trivial, hf⟩
  | FuncDecl t => exact ⟨rfl, hf⟩
  | BadDecl => exact ⟨rfl, hf⟩

omit [CaseRanges] in
theorem main.decls_ascii (T1 T2 : CaseRanges) (env : Env) (l : List Decl) (r : Run) (i : Nat)
    (hf : r.file.isASCII = true) (hl : l.all Decl.isASCII = true) :
    @main.decls T1 env r i l = @main.decls T2 env r i l := by
  induction l generalizing r i with
  | nil => rfl
  | cons d rest ih =>
    rw [List.all_cons, Bool.and_eq_true] at hl
    unfold main.decls
    obtain ⟨he, hfile⟩ := main.decl_ascii T1 T2 env r i d hf hl.1
    rw [he]
    cases hm : @main.decl T2 env r i d with
    | done r1 =>
      rw [hm] at hfile
      simp only []
      exact ih r1 (i + 1) hfile hl.2
    | crashed r1 => rfl

omit [CaseRanges] in
/-- On a file whose names are ASCII texts the loop of `main` does the same with any
two case tables. -/
theorem main.file_ascii (T1 T2 : CaseRanges) (env : Env) (g : Generator) (file : File)
    (h : file.isASCII = true) : @main.file T1 env g file = @main.file T2 env g file := by
  unfold main.file
  exact main.decls_ascii T1 T2 env file.Decls _ 0 h h

/-! ## The generated lists on files with more than one struct -/

/-- C2. On `shopFile`, `Setup` for `UserModel` succeeds and the generated `Create`
takes two parameters, `name string` and `title string`, inserts into the columns
`name,title` and passes `name,title` to `Exec`, although `UserModel` has the single
mutable field Name: the field Title of the sibling `ItemModel` is taken in. -/
theorem Create_takes_sibling_fields :
    Setup NewGenerator "UserModel" shopFile.Decls [userModelSpec]
      = SetupResult.ok shopUserGenerator ∧
    (fieldsOfModel "UserModel" shopFile.Decls).map (fun fs => colArgs (namedFields fs))
      = some ["name string"] ∧
    Generate.createSig shopUserGenerator
      = "func (r *UserRepository) Create(name string,title string) error \x7b" ∧
    Generate.insertStmt shopUserGenerator
      = "ins, err := r.dbCtx.Prepare(\"INSERT INTO user(name,title) VALUES(?,?)\")" ∧
    Generate.execCall shopUserGenerator = "_, err = ins.Exec(name,title)" := by
  exact of_decide_eq_true rfl

/-- C3. On `shopFile`, the scan-target list generated for `UserModel` is the same in
`Read` and `ReadAll` but has five targets, `&m.ID` twice and `&m.Title` of the
sibling `ItemModel` among them, while `UserModel` has three fields. -/
theorem scan_targets_include_sibling_fields :
    Setup NewGenerator "UserModel" shopFile.Decls [userModelSpec]
      = SetupResult.ok shopUserGenerator ∧
    (fieldsOfModel "UserModel" shopFile.Decls).map (fun fs => scanTargets (namedFields fs))
      = some ["&m.ID", "&m.Name", "&m.CreatedAt"] ∧
    Generate.readScan shopUserGenerator
      = "if err := row.Scan(&m.ID,&m.Name,&m.CreatedAt,&m.ID,&m.Title); err != nil \x7b" ∧
    Generate.readAllScan shopUserGenerator
      = "  err := rows.Scan(&m.ID,&m.Name,&m.CreatedAt,&m.ID,&m.Title)" ∧
    entryCount shopUserGenerator.readArgsWithP = 5 := by
  exact of_decide_eq_true rfl

/-- C4. On `shopFile`, the INSERT generated for `UserModel` has two columns and two
placeholders, while `UserModel` has one mutable field. -/
theorem insert_counts_include_sibling_fields :
    Setup NewGenerator "UserModel" shopFile.Decls [userModelSpec]
      = SetupResult.ok shopUserGenerator ∧
    entryCount shopUserGenerator.changableColNames = 2 ∧
    placeholderCount shopUserGenerator.changableColMasks = 2 ∧
    (fieldsOfModel "UserModel" shopFile.Decls).map
      (fun fs => (mutableFields (namedFields fs)).length) = some 1 := by
  exact of_decide_eq_true rfl

/-- C5. For `AuditModel`, whose fields are all system columns, `Setup` panics on
cutting the last position of the empty column list, and the run of `main` on the
file dies in that call without having written anything. -/
theorem Setup_panics_without_mutable_fields :
    mutableFields (allFields auditFile.Decls) = [] ∧
    (∀ specs, Setup NewGenerator "AuditModel" auditFile.Decls specs = SetupResult.panic) ∧
    (∃ r, main.file plainEnv NewGenerator auditFile = Outcome.crashed r ∧ r.written = []) := by
  refine ⟨of_decide_eq_true rfl, fun _ => rfl, ?_⟩
  exact ⟨_, rfl, of_decide_eq_true rfl⟩

/-- C6. Two files that differ only in the field of `AModel` (Name in one, Email in
the other): when the loop of `main` reaches `BModel`, `Setup` is entered with empty
lists in both, yet the lists it leaves for `BModel` differ between the two files and
hold the field of `AModel`, and so does the generated `Create`. -/
theorem sibling_fields_leak_into_second_model :
    (main.file plainEnv NewGenerator (pairFile [⟨["Name"], "string"⟩])).run.setupCalls.map
        Generator.accumulators = [["", "", "", "", ""], ["", "", "", "", ""]] ∧
    (main.file plainEnv NewGenerator (pairFile [⟨["Name"], "string"⟩])).run.g.rawModelName
      = "BModel" ∧
    (main.file plainEnv NewGenerator (pairFile [⟨["Name"], "string"⟩])).run.g.accumulators
      = ["name,title", "?,?", "name string,title string", "&m.Name,&m.Title",
         "m.Name,m.Title"] ∧
    (main.file plainEnv NewGenerator (pairFile [⟨["Email"], "string"⟩])).run.g.rawModelName
      = "BModel" ∧
    (main.file plainEnv NewGenerator (pairFile [⟨["Email"], "string"⟩])).run.g.accumulators
      = ["email,title", "?,?", "email string,title string", "&m.Email,&m.Title",
         "m.Email,m.Title"] ∧
    Generate.createSig (main.file plainEnv NewGenerator (pairFile [⟨["Name"], "string"⟩])).run.g
      = "func (r *BRepository) Create(name string,title string) error \x7b" ∧
    Generate.createSig (main.file plainEnv NewGenerator (pairFile [⟨["Email"], "string"⟩])).run.g
      = "func (r *BRepository) Create(email string,title string) error \x7b" := by
  rw [main.file_ascii _ emptyCaseRanges plainEnv NewGenerator (pairFile [⟨["Name"], "string"⟩])
      (by decide),
    main.file_ascii _ emptyCaseRanges plainEnv NewGenerator (pairFile [⟨["Email"], "string"⟩])
      (by decide)]
  decide

/-- C8. For `UserModel` the INSERT names the table `user`, while the two SELECTs,
the UPDATE and the DELETE name it `User`: only the INSERT lower-cases the name. -/
theorem table_name_differs_between_statements :
    Setup NewGenerator "UserModel" userFile.Decls [userModelSpec]
      = SetupResult.ok userGenerator ∧
    Generate.insertStmt userGenerator
      = "ins, err := r.dbCtx.Prepare(\"INSERT INTO user(name) VALUES(?)\")" ∧
    Generate.readQuery userGenerator
      = "row := r.dbCtx.QueryRow(\"SELECT * FROM User WHERE id = ?\", id)" ∧
    Generate.readAllQuery userGenerator = "rows, err := r.dbCtx.Query(\"SELECT * FROM User\")" ∧
    Generate.updateStmt userGenerator
      = "upd, err := r.dbCtx.Prepare(\"UPDATE User SET ...YOUR_QUERY... WHERE id = ?\")" ∧
    Generate.deleteStmt userGenerator
      = "_, err := r.dbCtx.Exec(\"DELETE FROM User WHERE id = ?\", id)" ∧
    [Generate.insertStmt userGenerator, Generate.readQuery userGenerator,
      Generate.readAllQuery userGenerator, Generate.updateStmt userGenerator,
      Generate.deleteStmt userGenerator] ⊆ Generate.lines userGenerator := by
  exact of_decide_eq_true rfl

/-- C10. In a grouped type declaration the second call of `Setup` is entered with the
lists the first call left: on `groupedFile` with the finished lists of `AModel`, and
on `regroupedFile`, where `AModel` is rejected with a Conflict, with the entries the
rejected call had appended. -/
theorem Setup_entered_with_leftover_lists :
    (main.file plainEnv NewGenerator groupedFile).run.setupCalls.map (fun g => g.rawModelName)
      = ["", "AModel"] ∧
    (main.file plainEnv NewGenerator groupedFile).run.setupCalls.map Generator.accumulators
      = [["", "", "", "", ""],
         ["name,title", "?,?", "name string,title string", "&m.Name,&m.Title",
          "m.Name,m.Title"]] ∧
    (main.file plainEnv NewGenerator groupedFile).run.g.accumulators
      = ["name,titlename,title", "?,??,?", "name string,title stringname string,title string",
         "&m.Name,&m.Title&m.Name,&m.Title", "m.Name,m.Titlem.Name,m.Title"] ∧
    (main.file plainEnv NewGenerator regroupedFile).run.logs
      = ["Repo already created -> ARepository\n"] ∧
    (main.file plainEnv NewGenerator regroupedFile).run.setupCalls.map Generator.accumulators
      = [["", "", "", "", ""], ["name,", "?,", "name string,", "&m.Name,", "m.Name,"]] := by
  rw [main.file_ascii _ emptyCaseRanges plainEnv NewGenerator groupedFile (by decide),
    main.file_ascii _ emptyCaseRanges plainEnv NewGenerator regroupedFile (by decide)]
  decide

/-! ## The derived names and the Conflict -/

theorem Setup.of_mem (g g1 : Generator) (name : String) (decls : List Decl) (specs : List Spec)
    (hn : Setup.names g name = some g1) (hm : g1.repoName ∈ typeNamesOf decls) :
    ∃ pre, Setup g name decls specs =
      SetupResult.conflict ("Repo already created -> " ++ g1.repoName)
        (Setup.add g1 (fieldsOfSpecs pre)) := by
  obtain ⟨pre, _, _, _, _, hr⟩ := Setup.decls_conflict g1 decls hm
  exact ⟨pre, by unfold Setup; rw [hn]; simp only []; rw [hr]⟩

theorem Setup.of_not_mem (g g1 : Generator) (name : String) (decls : List Decl)
    (specs : List Spec) (hn : Setup.names g name = some g1)
    (hm : g1.repoName ∉ typeNamesOf decls) :
    Setup g name decls specs =
      match Setup.trim (Setup.add g1 (allFields decls)) with
      | none => SetupResult.panic
      | some g3 => SetupResult.ok g3 := by
  unfold Setup; rw [hn]; simp only []; rw [Setup.decls_ok g1 decls hm]
  try rfl

theorem Setup.gen_repoName (g g1 g' : Generator) (name : String) (decls : List Decl)
    (specs : List Spec) (hn : Setup.names g name = some g1)
    (hg : (Setup g name decls specs).gen? = some g') : g'.repoName = g1.repoName := by
  by_cases hm : g1.repoName ∈ typeNamesOf decls
  · obtain ⟨pre, hr⟩ := Setup.of_mem g g1 name decls specs hn hm
    rw [hr] at hg
    simp only [SetupResult.gen?, Option.some.injEq] at hg
    rw [← hg]; rfl
  · rw [Setup.of_not_mem g g1 name decls specs hn hm] at hg
    cases ht : Setup.trim (Setup.add g1 (allFields decls)) with
    | none => rw [ht] at hg; simp [SetupResult.gen?] at hg
    | some g3 =>
      rw [ht] at hg
      simp only [SetupResult.gen?, Option.some.injEq] at hg
      rw [← hg]
      exact (Setup.trim_some _ _ ht).2.2.2.2.2.2.2.2

omit [CaseRanges] in
theorem stripAux_nil (sub : List Char) (fuel : Nat) : stripAux sub fuel [] = [] := by
  cases fuel <;> rfl

omit [CaseRanges] in
theorem stripAux_first (sub : List Char) (hsub : sub ≠ []) (p : List Char) (fuel : Nat)
    (hf : p.length + 1 ≤ fuel)
    (hfirst : ∀ j, j < p.length → ¬ sub <+: (p ++ sub).drop j) :
    stripAux sub fuel (p ++ sub) = p := by
  induction p generalizing fuel with
  | nil =>
    obtain ⟨f, rfl⟩ : ∃ f, fuel = f + 1 := ⟨fuel - 1, by simp at hf; omega⟩
    obtain ⟨c, cs, rfl⟩ : ∃ c cs, sub = c :: cs := by
      cases sub with
      | nil => exact absurd rfl hsub
      | cons c cs => exact ⟨c, cs, rfl⟩
    have hp : (c :: cs).isPrefixOf (c :: cs) = true := by
      rw [List.isPrefixOf_iff_prefix]
    show stripAux (c :: cs) (f + 1) (c :: cs) = []
    rw [stripAux, if_pos hp, List.drop_length, stripAux_nil]
  | cons c p ih =>
    obtain ⟨f, rfl⟩ : ∃ f, fuel = f + 1 := ⟨fuel - 1, by simp at hf; omega⟩
    have hnp : ¬ sub.isPrefixOf (c :: (p ++ sub)) = true := by
      rw [List.isPrefixOf_iff_prefix]
      exact hfirst 0 (by simp)
    show stripAux sub (f + 1) (c :: (p ++ sub)) = c :: p
    rw [stripAux, if_neg hnp, ih f (by simpa using hf)]
    intro j hj
    have := hfirst (j + 1) (by simpa using hj)
    simpa using this

omit [CaseRanges] in
/-- A name that ends in its only "Model" is stripped to what stands before it. -/
theorem specStrip_suffix (pre : String)
    (hfirst : ∀ pre1 post1 : String, pre ++ "Model" = pre1 ++ "Model" ++ post1 →
      pre.length ≤ pre1.length) :
    specStrip "Model" (pre ++ "Model") = pre := by
  unfold specStrip
  apply String.ext
  show stripAux "Model".data (pre ++ "Model").length (pre ++ "Model").data = pre.data
  rw [String.data_append]
  apply stripAux_first
  · decide
  · rw [String.length_append]
    have h5 : "Model".length = 5 := rfl
    rw [h5]
    show pre.data.length + 1 ≤ pre.data.length + 5
    omega
  · intro j hj hp
    obtain ⟨t, ht⟩ := hp
    have hsplit : pre ++ "Model" = (⟨(pre.data ++ "Model".data).take j⟩ : String) ++ "Model" ++ ⟨t⟩ := by
      apply String.ext
      rw [String.data_append, String.data_append, String.data_append]
      show pre.data ++ "Model".data = List.take j (pre.data ++ "Model".data) ++ "Model".data ++ t
      rw [List.append_assoc, ht, List.take_append_drop]
    have := hfirst _ _ hsplit
    have hl : (⟨(pre.data ++ "Model".data).take j⟩ : String).length ≤ j := by
      show (List.take j (pre.data ++ "Model".data)).length ≤ j
      rw [List.length_take]; exact Nat.min_le_left _ _
    have hj2 : j < pre.length := hj
    omega

/-- C7, as the code has it. For a struct name containing "Model", the repository
name `Setup` derives is what stands before the first "Model" in the struct name,
followed by "Repository"; whatever follows that first "Model" is dropped as well.
When the name ends in its only "Model" this is the name with "Model" stripped,
followed by "Repository". -/
theorem Setup_repoName_is_prefix (g : Generator) (name : String) (decls : List Decl)
    (specs : List Spec) (h : strings.Contains name "Model" = true) :
    ∃ pre post : String, name = pre ++ "Model" ++ post ∧
      (∀ pre1 post1 : String, name = pre1 ++ "Model" ++ post1 → pre.length ≤ pre1.length) ∧
      Setup.names g name =
        some { g with rawModelName := name, modelName := pre,
                      repoName := pre ++ "Repository" } ∧
      (∀ g', (Setup g name decls specs).gen? = some g' → g'.repoName = pre ++ "Repository") ∧
      (post = "" → pre ++ "Repository" = specStrip "Model" name ++ "Repository") := by
  obtain ⟨post, hsplit, _, hmin⟩ := modelNameOf_spec name h
  refine ⟨modelNameOf name, post, hsplit, hmin, Setup.names_eq g name h, ?_, ?_⟩
  · intro g' hg
    exact Setup.gen_repoName g _ g' name decls specs (Setup.names_eq g name h) hg
  · intro hp
    have hname : name = modelNameOf name ++ "Model" := by
      conv_lhs => rw [hsplit, hp, String.append_empty]
    have hs : specStrip "Model" (modelNameOf name ++ "Model") = modelNameOf name := by
      apply specStrip_suffix
      intro pre1 post1 he
      exact hmin pre1 post1 (by rw [← he]; exact hname)
    rw [← hname] at hs
    rw [hs]

omit [CaseRanges] in
/-- The statement of C7 at `UserModelExtra`, with whatever case tables. -/
theorem Setup_repoName_is_prefix_witness :
    strings.Contains "UserModelExtra" "Model" = true ∧
    ∀ [CaseRanges], ∃ pre post : String, "UserModelExtra" = pre ++ "Model" ++ post ∧
      (∀ g', (Setup NewGenerator "UserModelExtra" extraFile.Decls []).gen? = some g' →
        g'.repoName = pre ++ "Repository") :=
  ⟨by decide, by
    intro _
    obtain ⟨pre, post, h1, _, _, h4, _⟩ :=
      Setup_repoName_is_prefix NewGenerator "UserModelExtra" extraFile.Decls [] (by decide)
    exact ⟨pre, post, h1, h4⟩⟩

omit [CaseRanges] in
/-- C7, as the claim has it, fails: for `UserModelExtra` the name with "Model"
stripped gives `UserExtraRepository`, and `Setup` derives `UserRepository`, with
whatever case tables. -/
theorem repoName_is_not_the_stripped_name :
    strings.Contains "UserModelExtra" "Model" = true ∧
    specStrip "Model" "UserModelExtra" ++ "Repository" = "UserExtraRepository" ∧
    ∀ [CaseRanges],
      (Setup NewGenerator "UserModelExtra" extraFile.Decls []).gen?.map (fun g => g.repoName)
        = some "UserRepository" ∧
      (Setup NewGenerator "UserModelExtra" extraFile.Decls []).gen?.map (fun g => g.repoName)
        ≠ some (specStrip "Model" "UserModelExtra" ++ "Repository") := by
  refine ⟨by decide, by decide, ?_⟩
  intro _
  exact of_decide_eq_true rfl

theorem Setup.add_buf (g : Generator) (l : List (String × String)) :
    (Setup.add g l).buf = g.buf := rfl

/-- C9. For a struct name containing "Model", with `pre` what stands before its
first "Model": `Setup` returns the Conflict error exactly when some type declaration
of the list is named `pre` followed by "Repository".  In that case the buffer is as
it was, and the loop of `main` neither generates nor writes anything for the model:
it logs the error and goes on with the remaining specs. -/
theorem Setup_conflict_iff_repository_declared (env : Env) (r : Run) (name : String)
    (fs : List Field) (specs rest : List Spec) (h : strings.Contains name "Model" = true) :
    ∃ pre post : String, name = pre ++ "Model" ++ post ∧
      (∀ pre1 post1 : String, name = pre1 ++ "Model" ++ post1 → pre.length ≤ pre1.length) ∧
      ((∃ msg g', Setup r.g name r.file.Decls specs = SetupResult.conflict msg g') ↔
        (pre ++ "Repository") ∈ typeNamesOf r.file.Decls) ∧
      ((pre ++ "Repository") ∈ typeNamesOf r.file.Decls →
        ∃ g', Setup r.g name r.file.Decls specs =
            SetupResult.conflict ("Repo already created -> " ++ (pre ++ "Repository")) g' ∧
          g'.buf = r.g.buf ∧
          main.specs env specs r (Spec.TypeSpec name (TypeExpr.StructType fs) :: rest) =
            main.specs env specs
              { r with g := g',
                       logs := r.logs ++
                         ["Repo already created -> " ++ (pre ++ "Repository") ++ "\n"],
                       setupCalls := r.setupCalls ++ [r.g],
                       setupNames := r.setupNames ++ [name] } rest) := by
  obtain ⟨post, hsplit, _, hmin⟩ := modelNameOf_spec name h
  have hn := Setup.names_eq r.g name h
  have hconf : (modelNameOf name ++ "Repository") ∈ typeNamesOf r.file.Decls →
      ∃ g', Setup r.g name r.file.Decls specs =
          SetupResult.conflict ("Repo already created -> " ++ (modelNameOf name ++ "Repository"))
            g' ∧ g'.buf = r.g.buf := by
    intro hm
    obtain ⟨pre, hr⟩ := Setup.of_mem r.g _ name r.file.Decls specs hn hm
    exact ⟨_, hr, rfl⟩
  refine ⟨modelNameOf name, post, hsplit, hmin, ⟨?_, ?_⟩, ?_⟩
  · rintro ⟨msg, g', hr⟩
    by_contra hm
    rw [Setup.of_not_mem r.g _ name r.file.Decls specs hn hm] at hr
    cases ht : Setup.trim (Setup.add _ (allFields r.file.Decls)) <;> rw [ht] at hr <;>
      simp at hr
  · intro hm
    obtain ⟨g', hr, _⟩ := hconf hm
    exact ⟨_, g', hr⟩
  · intro hm
    obtain ⟨g', hr, hb⟩ := hconf hm
    refine ⟨g', hr, hb, ?_⟩
    have hc : (!strings.Contains name "Model") = false := by rw [h]; rfl
    rw [main.specs, main.spec]
    simp only [hc, hr]
    rfl

omit [CaseRanges] in
/-- The statement of C9 at `UserModel` of `regeneratedFile`, with whatever case tables. -/
theorem Setup_conflict_iff_repository_declared_witness :
    strings.Contains "UserModel" "Model" = true ∧
    ∀ [CaseRanges], ∃ pre post : String, "UserModel" = pre ++ "Model" ++ post ∧
      ((∃ msg g', Setup NewGenerator "UserModel" regeneratedFile.Decls [userModelSpec]
          = SetupResult.conflict msg g') ↔
        (pre ++ "Repository") ∈ typeNamesOf regeneratedFile.Decls) :=
  ⟨by decide, by
    intro _
    obtain ⟨pre, post, h1, _, h3, _⟩ := Setup_conflict_iff_repository_declared plainEnv
      { g := NewGenerator, file := regeneratedFile, written := [], logs := [],
        setupCalls := [], setupNames := [] }
      "UserModel" [] [userModelSpec] [] (by decide)
    exact ⟨pre, post, h1, h3⟩⟩

/-- Entered with an empty column list on declarations without a mutable field and
without a type named like the repository, `Setup` panics. -/
theorem Setup.panic_of_no_mutable (g : Generator) (name : String) (decls : List Decl)
    (specs : List Spec) (h : strings.Contains name "Model" = true)
    (hm : (modelNameOf name ++ "Repository") ∉ typeNamesOf decls)
    (he : g.changableColNames = "") (hmut : mutableFields (allFields decls) = []) :
    Setup g name decls specs = SetupResult.panic := by
  rw [Setup.of_not_mem g _ name decls specs (Setup.names_eq g name h) hm]
  have hd : dropLastByte (g.changableColNames ++ withSep (colNames (allFields decls))) = none := by
    rw [he, colNames, hmut]; rfl
  have ht : Setup.trim (Setup.add
      { g with rawModelName := name, modelName := modelNameOf name,
               repoName := modelNameOf name ++ "Repository" } (allFields decls)) = none := by
    simp only [Setup.trim, Setup.add, hd]
  rw [ht]

/-! ## Classification of the fields `Setup` reaches -/

omit [CaseRanges] in
theorem reachedSpecs_of_not_mem (repo : String) (specs : List Spec)
    (h : repo ∉ specs.filterMap Spec.typeName) : reachedSpecs repo specs = specs := by
  induction specs with
  | nil => rfl
  | cons s rest ih =>
    have hs : ¬ s.typeName = some repo := by
      intro e; apply h; rw [List.filterMap_cons, e]; exact List.mem_cons_self _ _
    have hr : repo ∉ rest.filterMap Spec.typeName := by
      intro e; apply h; rw [List.filterMap_cons]
      cases s.typeName with
      | none => exact e
      | some n => exact List.mem_cons_of_mem _ e
    rw [reachedSpecs, if_neg hs, ih hr]

omit [CaseRanges] in
theorem reachedSpecs_split (repo : String) (pre post : List Spec) (typ : TypeExpr)
    (h : repo ∉ pre.filterMap Spec.typeName) :
    reachedSpecs repo (pre ++ Spec.TypeSpec repo typ :: post) = pre := by
  induction pre with
  | nil => simp [reachedSpecs, Spec.typeName]
  | cons s rest ih =>
    have hs : ¬ s.typeName = some repo := by
      intro e; apply h; rw [List.filterMap_cons, e]; exact List.mem_cons_self _ _
    have hr : repo ∉ rest.filterMap Spec.typeName := by
      intro e; apply h; rw [List.filterMap_cons]
      cases s.typeName with
      | none => exact e
      | some n => exact List.mem_cons_of_mem _ e
    rw [List.cons_append, reachedSpecs, if_neg hs, ih hr]

theorem Setup.add_accumulators (g : Generator) (l : List (String × String)) :
    (Setup.add g l).accumulators =
      [g.changableColNames ++ withSep (colNames l), g.changableColMasks ++ withSep (colMasks l),
       g.changableColArgs ++ withSep (colArgs l), g.readArgsWithP ++ withSep (scanTargets l),
       g.readArgs ++ withSep (fieldValues l)] := rfl

/-- A call of `Setup` that returns no error leaves each list extended by the entries of
the fields of every struct declaration and cut by the last separator. -/
theorem Setup.ok_lists (g g' : Generator) (name : String) (decls : List Decl)
    (specs : List Spec) (h : Setup g name decls specs = SetupResult.ok g') :
    dropLastByte (g.changableColNames ++ withSep (colNames (allFields decls)))
      = some g'.changableColNames ∧
    dropLastByte (g.changableColMasks ++ withSep (colMasks (allFields decls)))
      = some g'.changableColMasks ∧
    dropLastByte (g.changableColArgs ++ withSep (colArgs (allFields decls)))
      = some g'.changableColArgs ∧
    dropLastByte (g.readArgsWithP ++ withSep (scanTargets (allFields decls)))
      = some g'.readArgsWithP ∧
    dropLastByte (g.readArgs ++ withSep (fieldValues (allFields decls))) = some g'.readArgs ∧
    (g.accumulators = ["", "", "", "", ""] →
      g'.accumulators =
        [commaSep (colNames (allFields decls)), commaSep (colMasks (allFields decls)),
         commaSep (colArgs (allFields decls)), commaSep (scanTargets (allFields decls)),
         commaSep (fieldValues (allFields decls))]) := by
  obtain ⟨g1, hn, _, ht⟩ := Setup.ok_inv g g' name decls specs h
  obtain ⟨a1, a2, a3, a4, a5, _⟩ := Setup.names_acc g g1 name hn
  obtain ⟨t1, t2, t3, t4, t5, _⟩ := Setup.trim_some _ _ ht
  simp only [Setup.add, a1, a2, a3, a4, a5] at t1 t2 t3 t4 t5
  refine ⟨t1, t2, t3, t4, t5, ?_⟩
  intro he
  simp only [Generator.accumulators, List.cons.injEq, and_true] at he
  obtain ⟨e1, e2, e3, e4, e5⟩ := he
  rw [e1] at t1; rw [e2] at t2; rw [e3] at t3; rw [e4] at t4; rw [e5] at t5
  simp only [Generator.accumulators]
  rw [dropLastByte_fresh _ _ t1, dropLastByte_fresh _ _ t2, dropLastByte_fresh _ _ t3,
    dropLastByte_fresh _ _ t4, dropLastByte_fresh _ _ t5]

/-- Every field has its scan target, is among the column names exactly when its
lower-cased name is no system name, and is either mutable or system, never both. -/
theorem classify_fields (l : List (String × String)) :
    (∀ f ∈ l,
      ("&m." ++ f.1) ∈ scanTargets l ∧
      (strings.ToLower f.1 ∈ colNames l ↔
        strings.ToLower f.1 ∉
          ["id", "created_at", "updated_at", "deleted_at", "createdat", "updatedat",
            "deletedat"])) ∧
    (∀ f, f ∈ l ↔ (f ∈ mutableFields l ∨ f ∈ systemFields l)) ∧
    (∀ f, ¬ (f ∈ mutableFields l ∧ f ∈ systemFields l)) ∧
    (mutableFields l).length + (systemFields l).length = l.length := by
  refine ⟨?_, ?_, ?_, length_mutable_add_system _⟩
  · intro f hf
    refine ⟨List.mem_map.mpr ⟨f, hf, rfl⟩, ?_⟩
    constructor
    · intro hm
      obtain ⟨f2, hf2, he⟩ := List.mem_map.mp hm
      rw [← he]
      exact ((mem_mutableFields _ f2).mp hf2).2
    · intro hs
      exact List.mem_map.mpr ⟨f, (mem_mutableFields _ f).mpr ⟨hf, hs⟩, rfl⟩
  · intro f
    rw [mem_mutableFields, mem_systemFields]
    constructor
    · intro hf
      by_cases hs : strings.ToLower f.1 ∈
          ["id", "created_at", "updated_at", "deleted_at", "createdat", "updatedat", "deletedat"]
      · exact Or.inr ⟨hf, hs⟩
      · exact Or.inl ⟨hf, hs⟩
    · rintro (⟨hf, _⟩ | ⟨hf, _⟩) <;> exact hf
  · intro f
    rw [mem_mutableFields, mem_systemFields]
    rintro ⟨⟨_, h1⟩, ⟨_, h2⟩⟩
    exact h1 h2

/-- C1, as the code has it. For a struct name without "Model" the slice of `Setup`
panics.  For a struct name containing "Model", with `pre` what stands before its
first "Model", `Setup` goes over the struct declarations that
stand before the first type named `pre` followed by "Repository", all of them when
there is no such type, and for every named field of these it appends the scan target
and the selector, and the column name, placeholder and typed argument exactly when
the lower-cased name of the field is none of the seven system names.  The lists so
extended are what a Conflict leaves; without a type of that name `Setup` cuts the
last separator of each list and returns, or panics on an empty list.  Among the
fields reached, the mutable and the system fields are disjoint and make up all. -/
theorem Setup_classifies_reached_fields (g : Generator) (name : String) (decls : List Decl)
    (specs : List Spec) :
    (strings.Contains name "Model" = false → Setup g name decls specs = SetupResult.panic) ∧
    (strings.Contains name "Model" = true →
    ∃ (pre post : String) (gl : Generator),
      name = pre ++ "Model" ++ post ∧
      (∀ pre1 post1 : String, name = pre1 ++ "Model" ++ post1 → pre.length ≤ pre1.length) ∧
      gl.accumulators =
        [g.changableColNames ++ withSep (colNames (reachedFields (pre ++ "Repository") decls)),
         g.changableColMasks ++ withSep (colMasks (reachedFields (pre ++ "Repository") decls)),
         g.changableColArgs ++ withSep (colArgs (reachedFields (pre ++ "Repository") decls)),
         g.readArgsWithP ++ withSep (scanTargets (reachedFields (pre ++ "Repository") decls)),
         g.readArgs ++ withSep (fieldValues (reachedFields (pre ++ "Repository") decls))] ∧
      ((pre ++ "Repository") ∈ typeNamesOf decls →
        Setup g name decls specs =
          SetupResult.conflict ("Repo already created -> " ++ (pre ++ "Repository")) gl) ∧
      ((pre ++ "Repository") ∉ typeNamesOf decls →
        reachedFields (pre ++ "Repository") decls = allFields decls ∧
        Setup g name decls specs =
          match Setup.trim gl with
          | none => SetupResult.panic
          | some g3 => SetupResult.ok g3) ∧
      (∀ g', Setup g name decls specs = SetupResult.ok g' →
        reachedFields (pre ++ "Repository") decls = allFields decls ∧
        dropLastByte (g.changableColNames ++ withSep (colNames (allFields decls)))
          = some g'.changableColNames ∧
        dropLastByte (g.changableColMasks ++ withSep (colMasks (allFields decls)))
          = some g'.changableColMasks ∧
        dropLastByte (g.changableColArgs ++ withSep (colArgs (allFields decls)))
          = some g'.changableColArgs ∧
        dropLastByte (g.readArgsWithP ++ withSep (scanTargets (allFields decls)))
          = some g'.readArgsWithP ∧
        dropLastByte (g.readArgs ++ withSep (fieldValues (allFields decls)))
          = some g'.readArgs ∧
        (g.accumulators = ["", "", "", "", ""] →
          g'.accumulators =
            [commaSep (colNames (allFields decls)), commaSep (colMasks (allFields decls)),
             commaSep (colArgs (allFields decls)), commaSep (scanTargets (allFields decls)),
             commaSep (fieldValues (allFields decls))])) ∧
      (∀ f ∈ reachedFields (pre ++ "Repository") decls,
        ("&m." ++ f.1) ∈ scanTargets (reachedFields (pre ++ "Repository") decls) ∧
        (strings.ToLower f.1 ∈ colNames (reachedFields (pre ++ "Repository") decls) ↔
          strings.ToLower f.1 ∉
            ["id", "created_at", "updated_at", "deleted_at", "createdat", "updatedat",
              "deletedat"])) ∧
      (∀ f, f ∈ reachedFields (pre ++ "Repository") decls ↔
        (f ∈ mutableFields (reachedFields (pre ++ "Repository") decls) ∨
          f ∈ systemFields (reachedFields (pre ++ "Repository") decls))) ∧
      (∀ f, ¬ (f ∈ mutableFields (reachedFields (pre ++ "Repository") decls) ∧
          f ∈ systemFields (reachedFields (pre ++ "Repository") decls))) ∧
      (mutableFields (reachedFields (pre ++ "Repository") decls)).length +
          (systemFields (reachedFields (pre ++ "Repository") decls)).length
        = (reachedFields (pre ++ "Repository") decls).length) := by
  refine ⟨fun hc => ?_, fun h => ?_⟩
  · have hi : ¬ (0 ≤ strings.Index name "Model") := by
      intro h0
      simp [strings.Contains, h0] at hc
    simp [Setup, Setup.names, sliceTo, hi]
  obtain ⟨post, hsplit, _, hmin⟩ := modelNameOf_spec name h
  have hn := Setup.names_eq g name h
  obtain ⟨c1, c2, c3, c4⟩ := classify_fields (reachedFields (modelNameOf name ++ "Repository") decls)
  have hall : (modelNameOf name ++ "Repository") ∉ typeNamesOf decls →
      reachedFields (modelNameOf name ++ "Repository") decls = allFields decls := by
    intro hm
    unfold reachedFields allFields
    rw [reachedSpecs_of_not_mem _ _ hm]
  refine ⟨modelNameOf name, post,
    Setup.add { g with rawModelName := name, modelName := modelNameOf name,
                       repoName := modelNameOf name ++ "Repository" }
      (reachedFields (modelNameOf name ++ "Repository") decls),
    hsplit, hmin, rfl, ?_, ?_, ?_, c1, c2, c3, c4⟩
  · intro hm
    obtain ⟨pre, post1, typ, hs, hpre, hr⟩ := Setup.decls_conflict
      { g with rawModelName := name, modelName := modelNameOf name,
               repoName := modelNameOf name ++ "Repository" } decls hm
    have hreach : reachedFields (modelNameOf name ++ "Repository") decls = fieldsOfSpecs pre := by
      unfold reachedFields
      rw [hs]
      exact congrArg fieldsOfSpecs (reachedSpecs_split _ pre post1 typ hpre)
    unfold Setup
    rw [hn]
    simp only []
    rw [hr, hreach]
  · intro hm
    refine ⟨hall hm, ?_⟩
    rw [hall hm]
    exact Setup.of_not_mem g _ name decls specs hn hm
  · intro g' hok
    obtain ⟨g1, hn1, hm1, _⟩ := Setup.ok_inv g g' name decls specs hok
    rw [hn] at hn1
    simp only [Option.some.injEq] at hn1
    rw [← hn1] at hm1
    exact ⟨hall hm1, Setup.ok_lists g g' name decls specs hok⟩

omit [CaseRanges] in
/-- The statement of C1 at `UserModel` of `userFile`, entered with empty lists, with
whatever case tables. -/
theorem Setup_classifies_reached_fields_witness :
    strings.Contains "UserModel" "Model" = true ∧
    ∀ [CaseRanges], ∃ (pre post : String) (gl : Generator),
      "UserModel" = pre ++ "Model" ++ post ∧
      gl.accumulators =
        ["" ++ withSep (colNames (reachedFields (pre ++ "Repository") userFile.Decls)),
         "" ++ withSep (colMasks (reachedFields (pre ++ "Repository") userFile.Decls)),
         "" ++ withSep (colArgs (reachedFields (pre ++ "Repository") userFile.Decls)),
         "" ++ withSep (scanTargets (reachedFields (pre ++ "Repository") userFile.Decls)),
         "" ++ withSep (fieldValues (reachedFields (pre ++ "Repository") userFile.Decls))] ∧
      (∀ g', Setup NewGenerator "UserModel" userFile.Decls [userModelSpec]
          = SetupResult.ok g' →
        g'.accumulators =
          [commaSep (colNames (allFields userFile.Decls)),
           commaSep (colMasks (allFields userFile.Decls)),
           commaSep (colArgs (allFields userFile.Decls)),
           commaSep (scanTargets (allFields userFile.Decls)),
           commaSep (fieldValues (allFields userFile.Decls))]) ∧
      Setup NewGenerator "UserModel" userFile.Decls [userModelSpec]
        = SetupResult.ok userGenerator := by
  refine ⟨by decide, ?_⟩
  intro _
  obtain ⟨pre, post, gl, h1, _, h3, _, _, h6, _⟩ :=
    (Setup_classifies_reached_fields NewGenerator "UserModel" userFile.Decls
      [userModelSpec]).2 (by decide)
  exact ⟨pre, post, gl, h1, h3, fun g' hg => (h6 g' hg).2.2.2.2.2.2 rfl,
    of_decide_eq_true rfl⟩

omit [CaseRanges] in
/-- C1, as the claim has it, fails: in `reversedFile` the repository type stands
before `UserModel`, so `Setup` returns the Conflict at the first declaration and adds
no field of either struct to any list, with whatever case tables. -/
theorem Setup_adds_nothing_after_repository :
    typeNamesOf reversedFile.Decls = ["UserRepository", "UserModel"] ∧
    scanTargets (allFields reversedFile.Decls)
      = ["&m.dbCtx", "&m.ID", "&m.Name", "&m.CreatedAt"] ∧
    ∀ [CaseRanges],
      Setup NewGenerator "UserModel" reversedFile.Decls [userModelSpec]
        = SetupResult.conflict "Repo already created -> UserRepository"
            { NewGenerator with rawModelName := "UserModel", modelName := "User",
                                repoName := "UserRepository" } ∧
      (Setup NewGenerator "UserModel" reversedFile.Decls [userModelSpec]).gen?.map
          Generator.accumulators = some ["", "", "", "", ""] ∧
      colNames (allFields reversedFile.Decls) = ["dbctx", "name"] := by
  refine ⟨by decide, by decide, ?_⟩
  intro _
  exact of_decide_eq_true rfl

/-! ## Which declarations the loop of `main` takes as models -/

set_option maxRecDepth 100000 in
/-- C12. On `pairFile`, two models in separate type declarations and no repository
yet, the loop writes the file twice.  The first content holds the repository of
`AModel`; the content written last holds both original declarations and the
repository of `BModel`, and no repository of `AModel`: the buffer is reset at the
second declaration and the printed file never holds generated code. -/
theorem last_write_drops_earlier_repository :
    (typeNamesOf (pairFile [⟨["Name"], "string"⟩]).Decls = ["AModel", "BModel"]) ∧
    ((main.file plainEnv NewGenerator (pairFile [⟨["Name"], "string"⟩])).run.written.map
      (fun s => (strings.Contains s "type AModel", strings.Contains s "type BModel",
                 strings.Contains s "type ARepository struct",
                 strings.Contains s "type BRepository struct")))
      = [(true, true, true, false), (true, true, false, true)] := by
  rw [main.file_ascii _ emptyCaseRanges plainEnv NewGenerator (pairFile [⟨["Name"], "string"⟩])
      (by decide)]
  decide

/-! ## The import list -/

omit [CaseRanges] in
/-- C13, as the code has it. `AppendImportPackage` returns the list followed by
one import of the package, whatever the list holds: the number of imports of the
package grows by one also when it was there already, and a second application adds
a second one, so it never gives what one application gives. -/
theorem AppendImportPackage_always_appends (pkg : String) (specs : List Spec) :
    AppendImportPackage pkg specs = specs ++ [Spec.ImportSpec ("\"" ++ pkg ++ "\"")] ∧
    (AppendImportPackage pkg specs).length = specs.length + 1 ∧
    countImports pkg (AppendImportPackage pkg specs) = countImports pkg specs + 1 ∧
    AppendImportPackage pkg (AppendImportPackage pkg specs) ≠ AppendImportPackage pkg specs ∧
    AppendImportPackage pkg specs ≠ specs := by
  refine ⟨rfl, by simp [AppendImportPackage], ?_, ?_, ?_⟩
  · simp [countImports, AppendImportPackage]
  · intro h
    have := congrArg List.length h
    simp [AppendImportPackage] at this
  · intro h
    have := congrArg List.length h
    simp [AppendImportPackage] at this

omit [CaseRanges] in
/-- C13, as the claim has it, fails: a list that already imports `database/sql` is
not returned unchanged, it gets a second import of it, and a second application
adds a third. -/
theorem AppendImportPackage_duplicates_import :
    countImports "database/sql" sqlImports = 1 ∧
    AppendImportPackage "database/sql" sqlImports
      = [Spec.ImportSpec "\"time\"", Spec.ImportSpec "\"database/sql\"",
         Spec.ImportSpec "\"database/sql\""] ∧
    AppendImportPackage "database/sql" sqlImports ≠ sqlImports ∧
    AppendImportPackage "database/sql" (AppendImportPackage "database/sql" sqlImports)
      ≠ AppendImportPackage "database/sql" sqlImports ∧
    ∀ [CaseRanges],
      (main.file plainEnv NewGenerator
          { Name := "user.go", Package := "model",
            Decls := [Decl.GenDecl Token.IMPORT sqlImports] }).run.file.Decls
        = [Decl.GenDecl Token.IMPORT
            [Spec.ImportSpec "\"time\"", Spec.ImportSpec "\"database/sql\"",
             Spec.ImportSpec "\"database/sql\""]] := by
  refine ⟨by decide, by decide, by decide, by decide, ?_⟩
  intro _
  rfl

/-! ## The text `Generate` appends -/

omit [CaseRanges] in
theorem Printfln_foldl (lines : List String) (g : Generator) :
    lines.foldl Printfln g =
      { g with buf := g.buf ++ concat (lines.map (fun l => l ++ "\n")) } := by
  induction lines generalizing g with
  | nil =>
    cases g
    simp [concat]
  | cons l rest ih =>
    rw [List.foldl_cons, ih]
    simp only [Printfln, List.map_cons]
    have hc : concat ((l ++ "\n") :: List.map (fun l => l ++ "\n") rest)
        = (l ++ "\n") ++ concat (List.map (fun l => l ++ "\n") rest) := rfl
    rw [hc]
    simp only [String.append_assoc]

set_option maxRecDepth 100000 in
set_option maxHeartbeats 4000000 in
/-- C14. `Generate` appends to the buffer and changes nothing else.  The appended text
is, in this order: the line `// Code generated by quikman (model: <raw struct name>)`
and the line `// This section is editable.` with an empty line after it, the
repository type, its constructor, and the five methods Create, Read, ReadAll, Update
and Delete, each declaration followed by an empty line. -/
theorem Generate_appends_header_type_and_methods (g : Generator) (structType : TypeExpr) :
    ∃ header repository constructor create read readAll update delete : String,
      header =
        "// Code generated by quikman (model: " ++ g.rawModelName ++ ")\n" ++
        "// This section is editable.\n\n" ∧
      repository =
        "type " ++ g.repoName ++ " struct \x7b\n" ++
        "dbCtx *sql.DB\n" ++
        "\x7d\n\n" ∧
      constructor =
        "func New" ++ g.repoName ++ " (dbCtx *sql.DB) *" ++ g.repoName ++ " \x7b\n" ++
        "\treturn &" ++ g.repoName ++ "\x7b\n" ++
        "\tdbCtx: dbCtx,\n" ++
        "\t\x7d\n" ++
        "\x7d\n\n" ∧
      create =
        "func (r *" ++ g.repoName ++ ") Create(" ++ g.changableColArgs ++ ") error \x7b\n" ++
        "ins, err := r.dbCtx.Prepare(\"INSERT INTO " ++ strings.ToLower g.modelName ++ "(" ++
          g.changableColNames ++ ") VALUES(" ++ g.changableColMasks ++ ")\")\n" ++
        "if err != nil \x7b\n" ++
        "  return err\n" ++
        "\x7d\n" ++
        "_, err = ins.Exec(" ++ g.changableColNames ++ ")\n" ++
        "return err\n" ++
        "\x7d\n\n" ∧
      read =
        "func (r *" ++ g.repoName ++ ") Read(id uint64) (*" ++ g.rawModelName ++
          ", error) \x7b\n" ++
        "var m *" ++ g.rawModelName ++ "\n\n" ++
        "row := r.dbCtx.QueryRow(\"SELECT * FROM " ++ g.modelName ++ " WHERE id = ?\", id)\n" ++
        "if err := row.Scan(" ++ g.readArgsWithP ++ "); err != nil \x7b\n" ++
        "  return nil, err\n" ++
        "\x7d\n" ++
        "return m, nil\n" ++
        "\x7d\n\n" ∧
      readAll =
        "func (r *" ++ g.repoName ++ ") ReadAll() ([]*" ++ g.rawModelName ++ ", error) \x7b\n" ++
        "var res []*" ++ g.rawModelName ++ "\n" ++
        "rows, err := r.dbCtx.Query(\"SELECT * FROM " ++ g.modelName ++ "\")\n" ++
        "if err != nil \x7b\n" ++
        "  return nil, err\n" ++
        "\x7d\n" ++
        "for rows.Next() \x7b\n" ++
        "  var m " ++ g.rawModelName ++ "\n" ++
        "  err := rows.Scan(" ++ g.readArgsWithP ++ ")\n" ++
        "  if err != nil \x7b\n" ++
        "    return nil, err\n" ++
        "  \x7d\n" ++
        "  res = append(res, &m)\n" ++
        "\x7d\n" ++
        "return res, nil\n" ++
        "\x7d\n\n" ∧
      update =
        "func (r *" ++ g.repoName ++ ") Update(id uint64) error \x7b\n" ++
        "// FIXME Set your query\n" ++
        "upd, err := r.dbCtx.Prepare(\"UPDATE " ++ g.modelName ++
          " SET ...YOUR_QUERY... WHERE id = ?\")\n" ++
        "if err != nil \x7b\n" ++
        "  return err\n" ++
        "\x7d\n" ++
        "_, err = upd.Exec(id)\n" ++
        "return err\n" ++
        "\x7d\n\n" ∧
      delete =
        "func (r *" ++ g.repoName ++ ") Delete(id uint64) error \x7b\n" ++
        "_, err := r.dbCtx.Exec(\"DELETE FROM " ++ g.modelName ++ " WHERE id = ?\", id)\n" ++
        "return err\n" ++
        "\x7d\n\n" ∧
      Generate g structType =
        { g with buf := g.buf ++ header ++ repository ++ constructor ++ create ++ read ++
                          readAll ++ update ++ delete } := by
  refine ⟨_, _, _, _, _, _, _, _, rfl, rfl, rfl, rfl, rfl, rfl, rfl, rfl, ?_⟩
  have hfold : Generate g structType =
      { g with buf := g.buf ++ concat ((Generate.lines g).map (fun l => l ++ "\n")) } :=
    Printfln_foldl _ g
  rw [hfold]
  congr 1
  apply String.ext
  simp [Generate.lines, generateCodeHeader.lines, Generate.createSig, Generate.insertStmt,
    Generate.execCall, Generate.readQuery, Generate.readScan, Generate.readAllQuery,
    Generate.readAllScan, Generate.updateStmt, Generate.deleteStmt, concat,
    String.data_append, List.append_assoc]

/-! ## Membership -/

omit [CaseRanges] in
/-- C17. `ArrayContains` returns true exactly when some element of the list equals
the key; it returns false on the empty list, and it tells letter case apart. -/
theorem ArrayContains_iff_mem (list : List String) (key : String) :
    (ArrayContains list key = true ↔ ∃ v, v ∈ list ∧ v = key) ∧
    (ArrayContains list key = false ↔ ∀ v, v ∈ list → v ≠ key) ∧
    ArrayContains [] key = false ∧
    ArrayContains ["id", "created_at"] "ID" = false ∧
    ArrayContains ["id", "created_at"] "id" = true := by
  have h1 : ArrayContains list key = true ↔ ∃ v, v ∈ list ∧ v = key := by
    rw [ArrayContains_eq_decide]
    simp
  refine ⟨h1, ?_, rfl, by decide, by decide⟩
  rw [← Bool.not_eq_true, h1]
  constructor
  · intro h v hv he
    exact h ⟨v, hv, he⟩
  · rintro h ⟨v, hv, he⟩
    exact h v hv he

/-! ## What a rejected call of `Setup` leaves behind -/

omit [CaseRanges] in
theorem splitComma_ne_nil (cs : List Char) : splitComma cs ≠ [] := by
  cases cs with
  | nil => simp [splitComma]
  | cons c cs =>
    unfold splitComma
    split
    · simp
    · split <;> simp

end Quikman
